import Mathlib

/-!
# gomailify: the dedup ledger, the mail sources, the relay and the forwarder

A shallow embedding of the Go sources under `internal/` and `cmd/gomailify`.

Conventions of the embedding.

* A Go `string` that holds text is a `List Char` (a sequence of Unicode code
  points, that is, a valid UTF-8 string); its length in bytes is `byteLen`.
  A Go `[]byte` holding a raw message is a `List Nat` of byte values.
* A Go `map[string]struct{}` is a `Finset (List Char)`.
* Everything the program obtains from outside (the file system, the mail
  servers, the clock, the header parser of go-message) is an explicit argument.
* A Go `error` result is an `Option` of an error tag (`none` is `nil`).
-/

set_option autoImplicit false

namespace Gomailify

/-! ## Strings and bytes -/

/-- The UTF-8 encoding of one code point, as Go stores it in a `string`. -/
def utf8Bytes (c : Char) : List Nat :=
  let v := c.toNat
  if v < 0x80 then [v]
  else if v < 0x800 then [0xC0 + v / 64, 0x80 + v % 64]
  else if v < 0x10000 then [0xE0 + v / 4096, 0x80 + v / 64 % 64, 0x80 + v % 64]
  else [0xF0 + v / 262144, 0x80 + v / 4096 % 64, 0x80 + v / 64 % 64, 0x80 + v % 64]

/-- The bytes of a Go string: `[]byte(s)`. -/
def toBytes (s : List Char) : List Nat := s.flatMap utf8Bytes

/-- The length of a Go string in bytes: `len(s)`. -/
def byteLen (s : List Char) : Nat := (s.map fun c => (utf8Bytes c).length).sum

deriving instance DecidableEq for Except

/-- Go's `unicode.IsSpace`: the code points with the White_Space property. -/
def isSpace (c : Char) : Bool :=
  let v := c.toNat
  v == 0x09 || v == 0x0A || v == 0x0B || v == 0x0C || v == 0x0D || v == 0x20 ||
  v == 0x85 || v == 0xA0 || v == 0x1680 || (0x2000 ≤ v && v ≤ 0x200A) ||
  v == 0x2028 || v == 0x2029 || v == 0x202F || v == 0x205F || v == 0x3000

/-- Go's `strings.TrimSpace`: white space removed at both ends. -/
def TrimSpace (s : List Char) : List Char :=
  List.rdropWhile isSpace (List.dropWhile isSpace s)

/-! ## internal/dedup -/

/-- The default token limit of `bufio.Scanner`: `bufio.MaxScanTokenSize`. -/
def maxScanTokenSize : Nat := 64 * 1024

/-- The helper `dropCR` of `bufio.ScanLines`: one trailing carriage return is dropped. -/
def dropCR (data : List Char) : List Char :=
  if data.getLast? = some '\r' then data.dropLast else data

/-- A run of `bufio.Scanner` with the split function `ScanLines` over `input`:
`for scanner.Scan() { ... scanner.Text() ... }` followed by `scanner.Err()`.
`cur` is the part of the current line that is already in the buffer and `n` its
length in bytes. The result is the list of tokens handed out, in order, and
whether the scan stopped with `ErrTooLong`: the buffer grows to
`maxScanTokenSize` bytes and no further, so a line whose bytes before the
newline fill it ends the scan with that error. -/
def scanAll : List Char → List Char → Nat → List (List Char) × Bool
  | [], cur, _ => (if cur = [] then [] else [dropCR cur], false)
  | c :: rest, cur, n =>
    if c = '\n' then
      (dropCR cur :: (scanAll rest [] 0).1, (scanAll rest [] 0).2)
    else if maxScanTokenSize ≤ n + (utf8Bytes c).length then ([], true)
    else scanAll rest (cur ++ [c]) (n + (utf8Bytes c).length)

/-- The errors of package dedup, one per `fmt.Errorf` of the source. -/
inductive DedupError
  | createDir
  | openFile
  | readFile
  | openAppend
  | writeID
  deriving DecidableEq, Repr

/-- What `os.Open(filePath)` finds. -/
inductive OpenResult
  | notExist
  | failed
  | content (data : List Char)
  deriving DecidableEq

/-- The type `Tracker`: the in-memory set of identifiers and the path of the backing file. -/
structure Tracker where
  ids : Finset (List Char)
  file : List Char
  deriving DecidableEq

/-- The body of the scanning loop of `NewTracker`: a non-empty trimmed line is inserted. -/
def loadLine (ids : Finset (List Char)) (text : List Char) : Finset (List Char) :=
  if TrimSpace text ≠ [] then insert (TrimSpace text) ids else ids

/-- The function `NewTracker`. `mkdirOk` is whether `os.MkdirAll` succeeded and
`opened` what `os.Open` found. -/
def NewTracker (filePath : List Char) (mkdirOk : Bool) (opened : OpenResult) :
    Except DedupError Tracker :=
  if !mkdirOk then .error .createDir
  else
    match opened with
    | .notExist => .ok { ids := ∅, file := filePath }
    | .failed => .error .openFile
    | .content data =>
      let ids := (scanAll data [] 0).1.foldl loadLine ∅
      if (scanAll data [] 0).2 then .error .readFile
      else .ok { ids := ids, file := filePath }

/-- The method `Tracker.SeenIDs`: a copy of the set. -/
def Tracker.SeenIDs (t : Tracker) : Finset (List Char) := t.ids

/-- The method `Tracker.Count`. -/
def Tracker.Count (t : Tracker) : Nat := t.ids.card

/-- What happens to the append of `MarkSeen`: both calls succeed, `os.OpenFile`
fails, or `fmt.Fprintln` fails after `written` characters of the line reached the file. -/
inductive AppendOutcome
  | ok
  | openFails
  | writeFails (written : Nat)
  deriving DecidableEq

/-- The result of `MarkSeen`: the tracker and the backing file afterwards (`none`
is an absent file) and the returned error. -/
structure MarkSeenResult where
  tracker : Tracker
  disk : Option (List Char)
  err : Option DedupError
  deriving DecidableEq

/-- The method `Tracker.MarkSeen`. The identifier enters the in-memory set before
the file is opened for append; `fmt.Fprintln(f, id)` writes `id` and a newline. -/
def Tracker.MarkSeen (t : Tracker) (disk : Option (List Char)) (id : List Char)
    (o : AppendOutcome) : MarkSeenResult :=
  if id ∈ t.ids then { tracker := t, disk := disk, err := none }
  else
    let t1 : Tracker := { t with ids := insert id t.ids }
    match o with
    | .openFails => { tracker := t1, disk := disk, err := some .openAppend }
    | .writeFails n =>
      { tracker := t1, disk := some (disk.getD [] ++ (id ++ ['\n']).take n), err := some .writeID }
    | .ok => { tracker := t1, disk := some (disk.getD [] ++ (id ++ ['\n'])), err := none }

/-- A sequence of `MarkSeen` calls whose appends all succeed. -/
def commitAll : Tracker × Option (List Char) → List (List Char) → Tracker × Option (List Char)
  | s, [] => s
  | s, id :: rest =>
    commitAll ((s.1.MarkSeen s.2 id .ok).tracker, (s.1.MarkSeen s.2 id .ok).disk) rest

/-- What `os.Open` finds for a backing file in state `disk`. -/
def openDisk : Option (List Char) → OpenResult
  | none => .notExist
  | some data => .content data

/-- The segments of a text between the occurrences of a separator. -/
def splitOnChar (sep : Char) : List Char → List (List Char)
  | [] => [[]]
  | c :: cs =>
    if c = sep then [] :: splitOnChar sep cs
    else
      match splitOnChar sep cs with
      | [] => [[c]]
      | l :: ls => (c :: l) :: ls

/-- The lines of a text: the segments between newline characters. -/
def splitLines (data : List Char) : List (List Char) := splitOnChar '\n' data

/-- The set of the white-space-trimmed members of a list of lines, the empty ones left out. -/
def lineSet (ls : List (List Char)) : Finset (List Char) :=
  ((ls.map TrimSpace).filter fun l => l ≠ []).toFinset

/-- The set of white-space-trimmed, non-empty lines of a text. -/
def trimmedLines (data : List Char) : Finset (List Char) :=
  lineSet (splitLines data)

/-! ## internal/config -/

/-- The verb `%d` of `fmt.Sprintf` on an `int`. -/
def fmtInt (n : Int) : List Char := (toString n).data

/-- The type `Account` of package config. -/
structure Account where
  Name : List Char
  Protocol : List Char
  Host : List Char
  Port : Int
  Username : List Char
  Password : List Char
  UseTLS : Bool
  ForwardTo : List Char
  CheckIntervalSeconds : Int
  ProcessDays : Int
  IMAPFolder : List Char
  deriving DecidableEq

/-- The type `SMTP` of package config. -/
structure SMTP where
  Host : List Char
  Port : Int
  Username : List Char
  Password : List Char
  UseTLS : Bool
  deriving DecidableEq

/-- The type `Config` of package config. -/
structure Config where
  LogLevel : List Char
  Sender : SMTP
  Accounts : List Account
  deriving DecidableEq

/-- The method `Account.GetProcessDays`. -/
def Account.GetProcessDays (a : Account) : Int :=
  if a.ProcessDays ≤ 0 then 7 else a.ProcessDays

/-- The method `Account.GetIMAPFolder`. -/
def Account.GetIMAPFolder (a : Account) : List Char :=
  if a.IMAPFolder = [] then "INBOX".data else a.IMAPFolder

/-- The value an `int64` holds when the exact result of an operation is `x`:
Go's signed 64-bit arithmetic wraps around. -/
def wrapInt64 (x : Int) : Int := (x + 2 ^ 63) % 2 ^ 64 - 2 ^ 63

/-- The constant `time.Second`: a `time.Duration` is an `int64` count of nanoseconds. -/
def Second : Int := 1000000000

/-- The largest number of seconds whose count of nanoseconds fits a `time.Duration`. -/
def maxDurationSeconds : Int := 9223372036

/-- The method `Account.CheckInterval`. `int` is 64 bits wide, so the conversion
`time.Duration(a.CheckIntervalSeconds)` keeps the value, and the product with
`time.Second` is an `int64` multiplication; `60 * time.Second` is a constant. -/
def Account.CheckInterval (a : Account) : Int :=
  if a.CheckIntervalSeconds ≤ 0 then 60 * Second
  else wrapInt64 (a.CheckIntervalSeconds * Second)

/-- The errors of `Config.validate`, one per `fmt.Errorf`; `label` is the account's
name, or `#i` for the i-th account when it has none. -/
inductive ConfigError
  | senderHost
  | senderPort
  | noAccounts
  | protocol (label : List Char)
  | host (label : List Char)
  | port (label : List Char)
  | forwardTo (label : List Char)
  deriving DecidableEq

/-- The loop of `Config.validate` over the accounts, from index `i` on. -/
def validateAccounts : Nat → List Account → Option ConfigError
  | _, [] => none
  | i, a :: rest =>
    let label := if a.Name = [] then '#' :: fmtInt i else a.Name
    if a.Protocol ≠ "pop3".data ∧ a.Protocol ≠ "imap".data then some (.protocol label)
    else if a.Host = [] then some (.host label)
    else if a.Port = 0 then some (.port label)
    else if a.ForwardTo = [] then some (.forwardTo label)
    else validateAccounts (i + 1) rest

/-- The method `Config.validate`. -/
def Config.validate (c : Config) : Option ConfigError :=
  if c.Sender.Host = [] then some .senderHost
  else if c.Sender.Port = 0 then some .senderPort
  else if c.Accounts.length = 0 then some .noAccounts
  else validateAccounts 0 c.Accounts

/-! ## internal/receiver -/

/-- The type `Email`. `Date` is a `time.Time`, an instant counted in nanoseconds
from the zero time of Go (January 1, year 1, 00:00 UTC), so that the zero time
is `0`. -/
structure Email where
  ID : List Char
  Date : Int
  Content : List Nat
  deriving DecidableEq

/-- The method `Time.IsZero`. -/
def isZeroTime (t : Int) : Bool := t == 0

/-- The method `Time.Before`. -/
def timeBefore (t u : Int) : Bool := decide (t < u)

/-- The clock: `time.Now()` and `Time.AddDate(0, 0, days)`. -/
structure Clock where
  now : Int
  addDays : Int → Int → Int

/-- What the reader of go-message (`mail.CreateReader`) yields for a raw message,
as far as the program reads it: `Header.Get("Message-ID")` (empty when absent),
`Header.Date()` (`none` when it returns an error) and the addresses of
`Header.AddressList("From")` (`none` when it returns an error). -/
structure MailHeader where
  messageID : List Char
  date : Option Int
  fromAddrs : Option (List (List Char))

/-- The function `extractMessageID`; `parse` is `mail.CreateReader`, `none` its error. -/
def extractMessageID (parse : List Nat → Option MailHeader) (raw : List Nat) : List Char :=
  match parse raw with
  | none => []
  | some h => h.messageID

/-- The function `extractDate`: the zero time when the message or its date cannot be parsed. -/
def extractDate (parse : List Nat → Option MailHeader) (raw : List Nat) : Int :=
  match parse raw with
  | none => 0
  | some h =>
    match h.date with
    | none => 0
    | some d => d

/-- The errors of the receivers, one per `fmt.Errorf`. -/
inductive ReceiverError
  | pop3Connect
  | pop3Auth
  | pop3List
  | imapConnect
  | imapLogin
  | imapSelect
  | imapSearch
  | imapFetch
  deriving DecidableEq

/-- The map `seenIDs` handed to `Fetch` as it is during the call, and the
messages collected so far (the variable `emails`). -/
structure FetchState where
  seenIDs : Finset (List Char)
  emails : List Email
  deriving DecidableEq

/-- What `Fetch` returns, and the caller's map `seenIDs` after the call. -/
structure FetchResult where
  seenIDs : Finset (List Char)
  result : Except ReceiverError (List Email)

/-- The type `POP3Receiver`. -/
structure POP3Receiver where
  host : List Char
  port : Int
  username : List Char
  password : List Char
  useTLS : Bool
  deriving DecidableEq

/-- An entry of `conn.List(0)`: the type `MessageID` of go-pop3. -/
structure POP3Msg where
  ID : Int
  UID : List Char
  deriving DecidableEq

/-- The POP3 server as one call of `Fetch` meets it: whether `NewConn` and `Auth`
succeed, what `List(0)` returns (`none` is an error) and what `RetrRaw(id)`
returns (`none` is an error). -/
structure POP3Server where
  connect : Bool
  auth : Bool
  list : Option (List POP3Msg)
  retr : Int → Option (List Nat)

/-- The identifier `Fetch` of POP3 gives a retrieved message. -/
def POP3Receiver.msgID (r : POP3Receiver) (parse : List Nat → Option MailHeader)
    (msg : POP3Msg) (raw : List Nat) : List Char :=
  if extractMessageID parse raw = [] then
    if msg.UID ≠ [] then "pop3-uid-".data ++ msg.UID ++ "-".data ++ r.username
    else "pop3-".data ++ fmtInt msg.ID ++ "-".data ++ r.username
  else extractMessageID parse raw

/-- The `Email` that `Fetch` of POP3 builds for a retrieved message. -/
def POP3Receiver.emailOf (r : POP3Receiver) (parse : List Nat → Option MailHeader)
    (msg : POP3Msg) (raw : List Nat) : Email :=
  { ID := r.msgID parse msg raw, Date := extractDate parse raw, Content := raw }

/-- The loop of `POP3Receiver.Fetch` over the listed messages. -/
def POP3Receiver.fetchLoop (r : POP3Receiver) (parse : List Nat → Option MailHeader)
    (retr : Int → Option (List Nat)) (cutoff : Int) : List POP3Msg → FetchState → FetchState
  | [], st => st
  | msg :: rest, st =>
    match retr msg.ID with
    | none => r.fetchLoop parse retr cutoff rest st
    | some raw =>
      if r.msgID parse msg raw ∈ st.seenIDs then r.fetchLoop parse retr cutoff rest st
      else if !isZeroTime (extractDate parse raw) && timeBefore (extractDate parse raw) cutoff then
        r.fetchLoop parse retr cutoff rest st
      else
        r.fetchLoop parse retr cutoff rest
          { st with emails := st.emails ++ [r.emailOf parse msg raw] }

/-- The method `POP3Receiver.Fetch`. -/
def POP3Receiver.Fetch (r : POP3Receiver) (parse : List Nat → Option MailHeader)
    (clock : Clock) (srv : POP3Server) (seenIDs : Finset (List Char)) (processDays : Int) :
    FetchResult :=
  if !srv.connect then { seenIDs := seenIDs, result := .error .pop3Connect }
  else if !srv.auth then { seenIDs := seenIDs, result := .error .pop3Auth }
  else
    match srv.list with
    | none => { seenIDs := seenIDs, result := .error .pop3List }
    | some msgs =>
      let st := r.fetchLoop parse srv.retr (clock.addDays clock.now (-processDays)) msgs
        { seenIDs := seenIDs, emails := [] }
      { seenIDs := st.seenIDs, result := .ok st.emails }

/-- The type `IMAPReceiver`. -/
structure IMAPReceiver where
  host : List Char
  port : Int
  username : List Char
  password : List Char
  useTLS : Bool
  folder : List Char
  deriving DecidableEq

/-- The function `NewIMAP`. -/
def NewIMAP (host : List Char) (port : Int) (username password : List Char) (useTLS : Bool)
    (folder : List Char) : IMAPReceiver :=
  { host := host, port := port, username := username, password := password, useTLS := useTLS,
    folder := if folder = [] then "INBOX".data else folder }

/-- The type `Envelope` of go-imap, as far as the program reads it. -/
structure Envelope where
  MessageID : List Char
  Date : Int
  deriving DecidableEq

/-- The type `FetchMessageBuffer` of go-imap, as far as the program reads it;
`body` is what `FindBodySection` returns. -/
structure FetchMessageBuffer where
  SeqNum : Nat
  Envelope : Option Envelope
  body : List Nat
  deriving DecidableEq

/-- The IMAP server as one call of `Fetch` meets it: whether dialing, `Login` and
`Select` succeed, what `Search` returns for a since-date and what the fetch
command collects for the sequence numbers found (`none` is an error). -/
structure IMAPServer where
  connect : Bool
  login : Bool
  select : Bool
  search : Int → Option (List Nat)
  collect : List Nat → Option (List FetchMessageBuffer)

/-- The identifier `Fetch` of IMAP gives a message. -/
def IMAPReceiver.msgID (r : IMAPReceiver) (buf : FetchMessageBuffer) : List Char :=
  let msgID := match buf.Envelope with
    | some env => env.MessageID
    | none => []
  if msgID = [] then "imap-".data ++ fmtInt buf.SeqNum ++ "-".data ++ r.username else msgID

/-- The `Email` that `Fetch` of IMAP builds for a message. -/
def IMAPReceiver.emailOf (r : IMAPReceiver) (buf : FetchMessageBuffer) : Email :=
  { ID := r.msgID buf,
    Date := match buf.Envelope with
      | some env => env.Date
      | none => 0,
    Content := buf.body }

/-- The loop of `IMAPReceiver.Fetch` over the collected messages. -/
def IMAPReceiver.fetchLoop (r : IMAPReceiver) : List FetchMessageBuffer → FetchState → FetchState
  | [], st => st
  | buf :: rest, st =>
    if r.msgID buf ∈ st.seenIDs then r.fetchLoop rest st
    else if buf.body.length = 0 then r.fetchLoop rest st
    else
      r.fetchLoop rest { st with emails := st.emails ++ [r.emailOf buf] }

/-- The method `IMAPReceiver.Fetch`. -/
def IMAPReceiver.Fetch (r : IMAPReceiver) (clock : Clock) (srv : IMAPServer)
    (seenIDs : Finset (List Char)) (processDays : Int) : FetchResult :=
  if !srv.connect then { seenIDs := seenIDs, result := .error .imapConnect }
  else if !srv.login then { seenIDs := seenIDs, result := .error .imapLogin }
  else if !srv.select then { seenIDs := seenIDs, result := .error .imapSelect }
  else
    match srv.search (clock.addDays clock.now (-processDays)) with
    | none => { seenIDs := seenIDs, result := .error .imapSearch }
    | some seqNums =>
      if seqNums.length = 0 then { seenIDs := seenIDs, result := .ok [] }
      else
        match srv.collect seqNums with
        | none => { seenIDs := seenIDs, result := .error .imapFetch }
        | some buffers =>
          let st := r.fetchLoop buffers { seenIDs := seenIDs, emails := [] }
          { seenIDs := st.seenIDs, result := .ok st.emails }

/-! ## internal/sender -/

/-- The type `Sender`. -/
structure Sender where
  host : List Char
  port : Int
  username : List Char
  password : List Char
  useTLS : Bool
  deriving DecidableEq

/-- The errors of `Forward`: one per `fmt.Errorf`, and the error of `client.Quit()`
that the last line returns as it is. -/
inductive SenderError
  | tlsDial
  | newClient
  | dial
  | auth
  | mailFrom
  | rcptTo
  | data
  | write
  | closeData
  | quit
  deriving DecidableEq

/-- The SMTP server as one call of `Forward` meets it: for every step whether it
succeeds (`startTLSOffered` is what `client.Extension("STARTTLS")` reports). -/
structure SMTPServer where
  tlsDial : Bool
  newClient : Bool
  dial : Bool
  startTLSOffered : Bool
  startTLS : Bool
  auth : Bool
  mail : Bool
  rcpt : Bool
  data : Bool
  write : Bool
  closeData : Bool
  quit : Bool
  deriving DecidableEq

/-- The calls `Forward` makes on the network, with their arguments. -/
inductive SMTPStep
  | tlsDial
  | newClient
  | dial
  | startTLS
  | auth
  | mail (sender : List Char)
  | rcpt (dest : List Char)
  | data
  | write (message : List Nat)
  | closeData
  | quit
  | closeClient
  deriving DecidableEq

/-- What a call of `Forward` returns and the calls it made, each with whether it succeeded. -/
structure ForwardResult where
  err : Option SenderError
  steps : List (SMTPStep × Bool)
  deriving DecidableEq

/-- The time `time.Now().UTC()` broken down into its calendar fields. -/
structure UTCTime where
  year : Nat
  month : Nat
  day : Nat
  hour : Nat
  minute : Nat
  second : Nat
  deriving DecidableEq

/-- The helper `appendInt` of package time: decimal digits, zero-padded to `width`. -/
def appendInt (x width : Nat) : List Char :=
  List.replicate (width - (Nat.toDigits 10 x).length) '0' ++ Nat.toDigits 10 x

/-- The layout `time.RFC3339` applied to a UTC time: `2006-01-02T15:04:05Z`. -/
def formatRFC3339 (t : UTCTime) : List Char :=
  appendInt t.year 4 ++ ['-'] ++ appendInt t.month 2 ++ ['-'] ++ appendInt t.day 2 ++ ['T'] ++
    appendInt t.hour 2 ++ [':'] ++ appendInt t.minute 2 ++ [':'] ++ appendInt t.second 2 ++ ['Z']

/-- The string `forwardHeaders` of `Forward`. -/
def forwardHeaders (originalID : List Char) (now : UTCTime) : List Char :=
  "X-Forwarded-By: gomailify\r\nX-Original-Message-ID: ".data ++ originalID ++
    "\r\nX-Forwarded-Time: ".data ++ formatRFC3339 now ++ "\r\n".data

/-- The envelope sender `Forward` uses: the first address of the From header when
the message and the header parse and there is one, else the sender's user name. -/
def Sender.envelopeFrom (s : Sender) (parse : List Nat → Option MailHeader)
    (rawEmail : List Nat) : List Char :=
  match parse rawEmail with
  | none => s.username
  | some h =>
    match h.fromAddrs with
    | some (addr :: _) => addr
    | _ => s.username

/-- The part of `Forward` from `defer client.Close()` on; `steps` are the calls made
to connect. -/
def Sender.session (s : Sender) (srv : SMTPServer) (sender dest : List Char) (message : List Nat)
    (steps : List (SMTPStep × Bool)) : ForwardResult :=
  let withAuth : Bool := decide (s.username ≠ [] ∧ s.password ≠ [])
  if withAuth && !srv.auth then
    { err := some .auth, steps := steps ++ [(.auth, false), (.closeClient, true)] }
  else
    let steps1 := steps ++ (if withAuth then [(.auth, true)] else [])
    if !srv.mail then
      { err := some .mailFrom, steps := steps1 ++ [(.mail sender, false), (.closeClient, true)] }
    else if !srv.rcpt then
      { err := some .rcptTo,
        steps := steps1 ++ [(.mail sender, true), (.rcpt dest, false), (.closeClient, true)] }
    else if !srv.data then
      { err := some .data,
        steps := steps1 ++ [(.mail sender, true), (.rcpt dest, true), (.data, false),
          (.closeClient, true)] }
    else if !srv.write then
      { err := some .write,
        steps := steps1 ++ [(.mail sender, true), (.rcpt dest, true), (.data, true),
          (.write message, false), (.closeClient, true)] }
    else if !srv.closeData then
      { err := some .closeData,
        steps := steps1 ++ [(.mail sender, true), (.rcpt dest, true), (.data, true),
          (.write message, true), (.closeData, false), (.closeClient, true)] }
    else
      { err := if srv.quit then none else some .quit,
        steps := steps1 ++ [(.mail sender, true), (.rcpt dest, true), (.data, true),
          (.write message, true), (.closeData, true), (.quit, srv.quit), (.closeClient, true)] }

/-- The method `Sender.Forward`. -/
def Sender.Forward (s : Sender) (parse : List Nat → Option MailHeader) (now : UTCTime)
    (srv : SMTPServer) (rawEmail : List Nat) (dest originalID : List Char) : ForwardResult :=
  let sender := s.envelopeFrom parse rawEmail
  let message := toBytes (forwardHeaders originalID now) ++ rawEmail
  if s.useTLS then
    if !srv.tlsDial then { err := some .tlsDial, steps := [(.tlsDial, false)] }
    else if !srv.newClient then
      { err := some .newClient, steps := [(.tlsDial, true), (.newClient, false)] }
    else s.session srv sender dest message [(.tlsDial, true), (.newClient, true)]
  else
    if !srv.dial then { err := some .dial, steps := [(.dial, false)] }
    else
      s.session srv sender dest message
        ((.dial, true) :: (if srv.startTLSOffered then [(.startTLS, srv.startTLS)] else []))

/-- The number of line feeds in a text: the number of lines it ends. -/
def lineFeeds (s : List Char) : Nat := s.count '\n'

/-! ## internal/forwarder -/

/-- The type `Forwarder`: the account; the receiver, the sender and the tracker it
points to are arguments of `poll`. -/
structure Forwarder where
  account : Account
  deriving DecidableEq

/-- The calls `poll` makes on the relay and on the ledger, in order: a call of
`Forward` with its arguments and whether it returned no error, and a call of `MarkSeen`. -/
inductive PollEvent
  | forward (content : List Nat) (dest id : List Char) (ok : Bool)
  | markSeen (id : List Char)
  deriving DecidableEq

/-- The ledger of one account (tracker and backing file) and the calls made so far. -/
structure PollState where
  tracker : Tracker
  disk : Option (List Char)
  trace : List PollEvent
  deriving DecidableEq

/-- The loop of `poll` over the fetched messages. `relay i` is what the i-th call of
`f.sender.Forward` of this poll returns for its arguments and `append i` what
happens to the append of the `MarkSeen` that follows it. -/
def Forwarder.pollLoop (f : Forwarder)
    (relay : Nat → List Nat → List Char → List Char → Option SenderError)
    (append : Nat → AppendOutcome) : Nat → List Email → PollState → PollState
  | _, [], st => st
  | i, email :: rest, st =>
    match relay i email.Content f.account.ForwardTo email.ID with
    | some _ =>
      f.pollLoop relay append (i + 1) rest
        { st with trace := st.trace ++
            [.forward email.Content f.account.ForwardTo email.ID false] }
    | none =>
      f.pollLoop relay append (i + 1) rest
        { tracker := (st.tracker.MarkSeen st.disk email.ID (append i)).tracker,
          disk := (st.tracker.MarkSeen st.disk email.ID (append i)).disk,
          trace := st.trace ++
            [.forward email.Content f.account.ForwardTo email.ID true, .markSeen email.ID] }

/-- The method `Forwarder.poll`. `fetch` is `f.receiver.Fetch` at this poll. -/
def Forwarder.poll (f : Forwarder)
    (fetch : Finset (List Char) → Int → Except ReceiverError (List Email))
    (relay : Nat → List Nat → List Char → List Char → Option SenderError)
    (append : Nat → AppendOutcome) (tracker : Tracker) (disk : Option (List Char)) : PollState :=
  match fetch tracker.SeenIDs f.account.GetProcessDays with
  | .error _ => { tracker := tracker, disk := disk, trace := [] }
  | .ok emails =>
    if emails.length = 0 then { tracker := tracker, disk := disk, trace := [] }
    else f.pollLoop relay append 0 emails { tracker := tracker, disk := disk, trace := [] }

/-- The arguments (content, destination, identifier) of the `Forward` calls of a
trace, in order. -/
def forwardCalls (trace : List PollEvent) : List (List Nat × List Char × List Char) :=
  trace.filterMap fun ev =>
    match ev with
    | .forward c d id _ => some (c, d, id)
    | .markSeen _ => none

/-- The events of one round of the loop of `poll`: the call of `Forward` and, when
it returned no error, the call of `MarkSeen`. -/
def roundEvents (f : Forwarder)
    (relay : Nat → List Nat → List Char → List Char → Option SenderError)
    (p : Nat × Email) : List PollEvent :=
  match relay p.1 p.2.Content f.account.ForwardTo p.2.ID with
  | some _ => [.forward p.2.Content f.account.ForwardTo p.2.ID false]
  | none => [.forward p.2.Content f.account.ForwardTo p.2.ID true, .markSeen p.2.ID]

/-- The messages of a fetch result whose `Forward` returns no error, with their
position in the result counted from `i`. -/
def relayed (f : Forwarder)
    (relay : Nat → List Nat → List Char → List Char → Option SenderError)
    (i : Nat) (emails : List Email) : List (Nat × Email) :=
  (emails.enumFrom i).filter fun p =>
    (relay p.1 p.2.Content f.account.ForwardTo p.2.ID).isNone

/-- The identifiers of the `MarkSeen` calls of a trace, in order. -/
def markSeenCalls (trace : List PollEvent) : List (List Char) :=
  trace.filterMap fun ev =>
    match ev with
    | .forward _ _ _ _ => none
    | .markSeen id => some id

/-- The function `time.NewTicker`: the ticker with period `d`, or `none` for the
panic "non-positive interval for NewTicker" when `d` is not positive. -/
def NewTicker (d : Int) : Option Int :=
  if d ≤ 0 then none else some d

/-- The ticker `Run` arms after its first poll:
`time.NewTicker(f.account.CheckInterval())`. -/
def Forwarder.runTicker (f : Forwarder) : Option Int :=
  NewTicker f.account.CheckInterval

/-! ## cmd/gomailify -/

/-- The bytes `sanitize` keeps: the ASCII letters and digits, the hyphen and the underscore. -/
def safeByte (b : Nat) : Bool :=
  (97 ≤ b && b ≤ 122) || (65 ≤ b && b ≤ 90) || (48 ≤ b && b ≤ 57) || b == 45 || b == 95

/-- The body of the loop of `sanitize`: a kept byte stays, any other becomes an underscore. -/
def sanitizeByte (b : Nat) : Char :=
  if safeByte b then Char.ofNat b else '_'

/-- The function `sanitize`: it works on the bytes of the name. -/
def sanitize (name : List Char) : List Char :=
  if name = [] then "default".data else (toBytes name).map sanitizeByte

/-- A name that `sanitize` leaves as it is: not empty and made of kept bytes only. -/
def safeName (name : List Char) : Prop :=
  name ≠ [] ∧ ∀ c ∈ name, safeByte c.toNat = true

instance : DecidablePred safeName := fun name => by
  unfold safeName
  infer_instance

/-- The elements of a slash-separated path. -/
def splitPath (path : List Char) : List (List Char) := splitOnChar '/' path

/-- One element in `filepath.Clean`: empty and `.` elements vanish, `..` removes the
element before it (at the root it vanishes, at the start of a relative path it stays). -/
def cleanStep (rooted : Bool) (stack : List (List Char)) (comp : List Char) :
    List (List Char) :=
  if comp = [] ∨ comp = ['.'] then stack
  else if comp = ['.', '.'] then
    match stack.getLast? with
    | some top => if top = ['.', '.'] then stack ++ [comp] else stack.dropLast
    | none => if rooted then stack else stack ++ [comp]
  else stack ++ [comp]

/-- The function `filepath.Clean` on a Unix path. -/
def filepathClean (path : List Char) : List Char :=
  if path = [] then ['.']
  else
    let rooted : Bool := path.head? = some '/'
    let body := List.intercalate ['/'] ((splitPath path).foldl (cleanStep rooted) [])
    if rooted then '/' :: body else if body = [] then ['.'] else body

/-- The function `filepath.Join` on Unix: the non-empty elements joined by a slash, cleaned. -/
def filepathJoin (elems : List (List Char)) : List Char :=
  if elems.filter (fun e => e ≠ []) = [] then []
  else filepathClean (List.intercalate ['/'] (elems.filter fun e => e ≠ []))

/-- The path `dedupFile` that `main` computes for an account. -/
def dedupFile (dataDir : List Char) (acct : Account) : List Char :=
  filepathJoin [dataDir, sanitize acct.Name ++ ".seen".data]

/-- The receiver `newReceiver` builds. -/
inductive ReceiverKind
  | pop3 (r : POP3Receiver)
  | imap (r : IMAPReceiver)
  deriving DecidableEq

/-- The function `newReceiver`; `none` is the error for an unsupported protocol. -/
def newReceiver (acct : Account) : Option ReceiverKind :=
  if acct.Protocol = "pop3".data then
    some (.pop3 { host := acct.Host, port := acct.Port, username := acct.Username,
                  password := acct.Password, useTLS := acct.UseTLS })
  else if acct.Protocol = "imap".data then
    some (.imap (NewIMAP acct.Host acct.Port acct.Username acct.Password acct.UseTLS
      acct.GetIMAPFolder))
  else none

/-- The loop of `main` over the accounts: the workers it starts, each with its
account and the ledger file it opens. `trackerOk` is whether `NewTracker`
succeeds on a path; an account without receiver or tracker is skipped. -/
def mainWorkers (dataDir : List Char) (trackerOk : List Char → Bool) :
    List Account → List (Account × List Char)
  | [] => []
  | acct :: rest =>
    match newReceiver acct with
    | none => mainWorkers dataDir trackerOk rest
    | some _ =>
      if trackerOk (dedupFile dataDir acct) then
        (acct, dedupFile dataDir acct) :: mainWorkers dataDir trackerOk rest
      else mainWorkers dataDir trackerOk rest

/-! ## A small mailbox for the worked examples -/

/-- A header parser for the examples: the message with the single byte 1 has the
Message-ID "m1" and the date 100, the one with the byte 2 has "m2" and a date that
does not parse, the one with the byte 3 has "m3" and the date 950; nothing else parses. -/
def demoParse (raw : List Nat) : Option MailHeader :=
  if raw = [1] then
    some { messageID := "m1".data, date := some 100, fromAddrs := some ["alice@example.com".data] }
  else if raw = [2] then some { messageID := "m2".data, date := none, fromAddrs := none }
  else if raw = [3] then some { messageID := "m3".data, date := some 950, fromAddrs := none }
  else none

/-- A POP3 mailbox for the examples, holding the three messages of `demoParse`. -/
def demoPOP3 : POP3Server :=
  { connect := true, auth := true,
    list := some [{ ID := 1, UID := "u1".data }, { ID := 2, UID := "u2".data },
      { ID := 3, UID := "u3".data }],
    retr := fun i => if i = 1 then some [1] else if i = 2 then some [2]
      else if i = 3 then some [3] else none }

/-- An IMAP mailbox for the examples: two messages, "m1" and one without envelope. -/
def demoIMAP : IMAPServer :=
  { connect := true, login := true, select := true,
    search := fun _ => some [1, 2],
    collect := fun _ => some [
      { SeqNum := 1, Envelope := some { MessageID := "m1".data, Date := 100 }, body := [1] },
      { SeqNum := 2, Envelope := none, body := [7] }] }

/-- A clock for the examples: now is 1000, a day lasts 10. -/
def demoClock : Clock := { now := 1000, addDays := fun t d => t + 10 * d }

/-- A POP3 receiver for the examples. -/
def demoPOP3Receiver : POP3Receiver :=
  { host := "pop.example.com".data, port := 995, username := "bob".data,
    password := "pw".data, useTLS := true }

/-- An IMAP receiver for the examples. -/
def demoIMAPReceiver : IMAPReceiver :=
  NewIMAP "imap.example.com".data 993 "bob".data "pw".data true []

/-- A forwarder for the examples: the account "work" forwards to bob@example.org. -/
def demoForwarder : Forwarder :=
  { account :=
      { Name := "work".data, Protocol := "pop3".data, Host := "pop.example.com".data,
        Port := 995, Username := "bob".data, Password := "pw".data, UseTLS := true,
        ForwardTo := "bob@example.org".data, CheckIntervalSeconds := 0, ProcessDays := 0,
        IMAPFolder := [] } }

/-- The receiver of the examples as `poll` calls it: `Fetch` of POP3 on the mailbox
of the examples. -/
def demoFetch (seenIDs : Finset (List Char)) (processDays : Int) :
    Except ReceiverError (List Email) :=
  (demoPOP3Receiver.Fetch demoParse demoClock demoPOP3 seenIDs processDays).result

/-- A relay for the examples: `Forward` succeeds for "m2" and fails for any other message. -/
def demoRelay (_ : Nat) (_ : List Nat) (_ : List Char) (id : List Char) : Option SenderError :=
  if id = "m2".data then none else some .rcptTo

/-- The ledger of the examples: a fresh tracker on an absent file. -/
def demoTracker : Tracker := { ids := ∅, file := "data/work.seen".data }

/-- A sender for the examples: plain transport, no credentials. -/
def demoSender : Sender :=
  { host := "smtp.example.com".data, port := 25, username := [], password := [], useTLS := false }

/-- An SMTP server for the examples on which every step succeeds but `QUIT`. -/
def demoSMTPQuitFails : SMTPServer :=
  { tlsDial := true, newClient := true, dial := true, startTLSOffered := false, startTLS := true,
    auth := true, mail := true, rcpt := true, data := true, write := true, closeData := true,
    quit := false }

/-- A time for the examples: 2026-11-04 09:05:00 UTC. -/
def demoNow : UTCTime :=
  { year := 2026, month := 11, day := 4, hour := 9, minute := 5, second := 0 }

/-- An account for the examples with the given name. -/
def demoAccount (name : List Char) : Account :=
  { Name := name, Protocol := "imap".data, Host := "imap.example.com".data, Port := 993,
    Username := "bob".data, Password := "pw".data, UseTLS := true,
    ForwardTo := "bob@example.org".data, CheckIntervalSeconds := 0, ProcessDays := 0,
    IMAPFolder := [] }

/-- A configuration for the examples with two accounts, named "a b" and "a_b". -/
def demoConfig : Config :=
  { LogLevel := "info".data,
    Sender := { Host := "smtp.example.com".data, Port := 25, Username := [], Password := [],
                UseTLS := false },
    Accounts := [demoAccount "a b".data, demoAccount "a_b".data] }

/-- A configuration for the examples with two accounts, named "work" and "home". -/
def demoConfigPlain : Config :=
  { demoConfig with Accounts := [demoAccount "work".data, demoAccount "home".data] }

/-- An identifier that the line format of the backing file can hold: not empty,
no newline inside, no white space at either end, and short enough for the
scanner's buffer. -/
def lineSafe (id : List Char) : Prop :=
  id ≠ [] ∧ '\n' ∉ id ∧ TrimSpace id = id ∧ byteLen id < maxScanTokenSize

instance : DecidablePred lineSafe := fun id => by
  unfold lineSafe
  infer_instance

/-- The content of a backing file that holds the lines `L`, each ended by a newline. -/
def fileOfLines (L : List (List Char)) : List Char :=
  L.flatMap fun id => id ++ ['\n']

/-- The round trip of the ledger: `NewTracker` on an absent file, the identifiers
`ids` committed with `MarkSeen` (every append succeeding), and `NewTracker` again
on what the backing file then holds. -/
def reloadAfter (filePath : List Char) (ids : List (List Char)) : Except DedupError Tracker :=
  match NewTracker filePath true .notExist with
  | .error e => .error e
  | .ok t0 => NewTracker filePath true (openDisk (commitAll (t0, none) ids).2)

/-- An account for the examples with the given poll interval in seconds. -/
def demoAccountEvery (seconds : Int) : Account :=
  { Name := "work".data, Protocol := "imap".data, Host := "imap.example.com".data, Port := 993,
    Username := "bob".data, Password := "pw".data, UseTLS := true,
    ForwardTo := "bob@example.org".data, CheckIntervalSeconds := seconds, ProcessDays := 0,
    IMAPFolder := [] }

/-- A configuration for the examples whose only account polls every `seconds` seconds. -/
def demoConfigEvery (seconds : Int) : Config :=
  { LogLevel := "info".data,
    Sender := { Host := "smtp.example.com".data, Port := 25, Username := [], Password := [],
                UseTLS := false },
    Accounts := [demoAccountEvery seconds] }

/-! ## Lemmas: strings -/

theorem byteLen_append (a b : List Char) : byteLen (a ++ b) = byteLen a + byteLen b := by
  simp [byteLen]

theorem byteLen_singleton (c : Char) : byteLen [c] = (utf8Bytes c).length := by
  simp [byteLen]

theorem trim_concat_space (p : Char → Bool) (x : Char) (hx : p x = true) (l : List Char) :
    List.rdropWhile p (List.dropWhile p (l ++ [x])) = List.rdropWhile p (List.dropWhile p l) := by
  induction l with
  | nil => simp [List.dropWhile, hx]
  | cons a l ih =>
    by_cases ha : p a = true
    · simpa [List.dropWhile, ha] using ih
    · have h1 : List.dropWhile p (a :: l ++ [x]) = (a :: l) ++ [x] := by
        simp [List.dropWhile, ha]
      have h2 : List.dropWhile p (a :: l) = a :: l := by
        simp [List.dropWhile, ha]
      rw [h1, h2, List.rdropWhile_concat_pos _ _ _ hx]

theorem TrimSpace_dropCR (l : List Char) : TrimSpace (dropCR l) = TrimSpace l := by
  unfold dropCR
  split
  · rename_i h
    have hne : l ≠ [] := by
      intro h0
      simp [h0] at h
    have hl : l = l.dropLast ++ ['\r'] := by
      have h1 := List.dropLast_append_getLast hne
      have h2 : l.getLast hne = '\r' := by
        rw [List.getLast?_eq_getLast _ hne] at h
        exact Option.some.inj h
      rw [h2] at h1
      exact h1.symm
    have h3 := trim_concat_space isSpace '\r' (by decide) l.dropLast
    rw [← hl] at h3
    exact h3.symm
  · rfl

/-! ## Lemmas: lines and the scanner -/

theorem splitOnChar_append (sep : Char) (p d l : List Char) (ls : List (List Char))
    (hp : sep ∉ p) (h : splitOnChar sep d = l :: ls) :
    splitOnChar sep (p ++ d) = (p ++ l) :: ls := by
  induction p with
  | nil => simpa using h
  | cons a p ih =>
    have ha : a ≠ sep := fun e => hp (by simp [e])
    have hp2 : sep ∉ p := fun e => hp (List.mem_cons_of_mem _ e)
    simp [splitOnChar, ha, ih hp2]

theorem splitOnChar_no_sep (sep : Char) (p : List Char) (hp : sep ∉ p) :
    splitOnChar sep p = [p] := by
  have h := splitOnChar_append sep p [] [] [] hp rfl
  simpa using h

theorem splitOnChar_shape (sep : Char) (d : List Char) :
    ∃ l ls, splitOnChar sep d = l :: ls := by
  induction d with
  | nil => exact ⟨[], [], rfl⟩
  | cons c cs ih =>
    obtain ⟨l, ls, h⟩ := ih
    by_cases hc : c = sep
    · exact ⟨[], splitOnChar sep cs, by simp [splitOnChar, hc]⟩
    · exact ⟨c :: l, ls, by simp [splitOnChar, hc, h]⟩

theorem splitOnChar_append_sep (sep : Char) (p r : List Char) :
    splitOnChar sep (p ++ sep :: r) = splitOnChar sep p ++ splitOnChar sep r := by
  induction p with
  | nil => simp [splitOnChar]
  | cons c p ih =>
    by_cases hc : c = sep
    · simp [splitOnChar, hc, ih]
    · obtain ⟨l, ls, h⟩ := splitOnChar_shape sep p
      simp [splitOnChar, hc, ih, h]

theorem splitLines_append (p d l : List Char) (ls : List (List Char))
    (hp : '\n' ∉ p) (h : splitLines d = l :: ls) :
    splitLines (p ++ d) = (p ++ l) :: ls :=
  splitOnChar_append '\n' p d l ls hp h

theorem splitLines_no_newline (p : List Char) (hp : '\n' ∉ p) : splitLines p = [p] :=
  splitOnChar_no_sep '\n' p hp

theorem splitLines_line (p r : List Char) (hp : '\n' ∉ p) :
    splitLines (p ++ '\n' :: r) = p :: splitLines r := by
  unfold splitLines
  rw [splitOnChar_append_sep, splitOnChar_no_sep _ p hp]
  rfl

theorem splitLines_shape (d : List Char) : ∃ l ls, splitLines d = l :: ls :=
  splitOnChar_shape '\n' d

theorem scanAll_tooLong (data : List Char) :
    ∀ (cur : List Char) (n : Nat), '\n' ∉ cur → n = byteLen cur → n < maxScanTokenSize →
      ((scanAll data cur n).2 = true ↔
        ∃ l ∈ splitLines (cur ++ data), maxScanTokenSize ≤ byteLen l) := by
  induction data with
  | nil =>
    intro cur n hcur hn hlt
    have h1 : (scanAll [] cur n).2 = false := by simp [scanAll]
    rw [h1]
    simp only [List.append_nil, splitLines_no_newline cur hcur, List.mem_singleton]
    constructor
    · intro h
      cases h
    · rintro ⟨l, rfl, hl⟩
      omega
  | cons c rest ih =>
    intro cur n hcur hn hlt
    by_cases hc : c = '\n'
    · subst hc
      have h1 : (scanAll ('\n' :: rest) cur n).2 = (scanAll rest [] 0).2 := by simp [scanAll]
      have h0 := ih [] 0 (by simp) (by simp [byteLen]) (by decide)
      rw [h1, h0, splitLines_line cur rest hcur]
      simp only [List.nil_append, List.mem_cons]
      constructor
      · rintro ⟨l, hl, hb⟩
        exact ⟨l, Or.inr hl, hb⟩
      · rintro ⟨l, hl | hl, hb⟩
        · subst hl
          omega
        · exact ⟨l, hl, hb⟩
    · obtain ⟨l, ls, hsp⟩ := splitLines_shape rest
      have hcur2 : '\n' ∉ cur ++ [c] := by
        simp only [List.mem_append, List.mem_singleton, not_or]
        exact ⟨hcur, fun e => hc e.symm⟩
      have hsplit : splitLines (cur ++ c :: rest) = (cur ++ [c] ++ l) :: ls := by
        have := splitLines_append (cur ++ [c]) rest l ls hcur2 hsp
        simpa using this
      by_cases hbig : maxScanTokenSize ≤ n + (utf8Bytes c).length
      · have h1 : (scanAll (c :: rest) cur n).2 = true := by simp [scanAll, hc, hbig]
        rw [h1, hsplit]
        simp only [true_iff]
        refine ⟨cur ++ [c] ++ l, List.mem_cons_self _ _, ?_⟩
        rw [byteLen_append, byteLen_append, byteLen_singleton]
        omega
      · have h1 : scanAll (c :: rest) cur n
            = scanAll rest (cur ++ [c]) (n + (utf8Bytes c).length) := by
          simp [scanAll, hc, hbig]
        have h0 := ih (cur ++ [c]) (n + (utf8Bytes c).length) hcur2
          (by rw [byteLen_append, byteLen_singleton, hn]) (by omega)
        rw [h1, h0]
        simp

theorem lineSet_cons (l : List Char) (ls : List (List Char)) :
    lineSet (l :: ls) = lineSet [l] ∪ lineSet ls := by
  unfold lineSet
  by_cases h : TrimSpace l = []
  · simp [List.filter, h]
  · simp [List.filter, h, Finset.insert_eq]

theorem lineSet_nil_line : lineSet [[]] = ∅ := by
  decide

theorem loadLine_eq (s : Finset (List Char)) (l : List Char) :
    loadLine s l = s ∪ lineSet [l] := by
  unfold loadLine lineSet
  by_cases h : TrimSpace l = []
  · simp [List.filter, h]
  · simp [List.filter, h, Finset.insert_eq, Finset.union_comm]

theorem scanAll_ids (data : List Char) :
    ∀ (cur : List Char) (n : Nat) (s : Finset (List Char)), '\n' ∉ cur →
      (scanAll data cur n).2 = false →
      (scanAll data cur n).1.foldl loadLine s = s ∪ trimmedLines (cur ++ data) := by
  induction data with
  | nil =>
    intro cur n s hcur _
    unfold trimmedLines
    rw [List.append_nil, splitLines_no_newline cur hcur]
    by_cases h : cur = []
    · subst h
      simp [scanAll, lineSet_nil_line]
    · simp only [scanAll, h, if_false, List.foldl_cons, List.foldl_nil]
      rw [loadLine_eq]
      unfold lineSet
      simp only [List.map_cons, List.map_nil, TrimSpace_dropCR]
  | cons c rest ih =>
    intro cur n s hcur hok
    by_cases hc : c = '\n'
    · subst hc
      have h1 : (scanAll ('\n' :: rest) cur n).1 = dropCR cur :: (scanAll rest [] 0).1 := by
        simp [scanAll]
      have h2 : (scanAll rest [] 0).2 = false := by
        simpa [scanAll] using hok
      have h0 := ih [] 0 (loadLine s (dropCR cur)) (by simp) h2
      rw [h1, List.foldl_cons, h0]
      unfold trimmedLines
      rw [splitLines_line cur rest hcur, lineSet_cons cur, loadLine_eq, List.nil_append,
        Finset.union_assoc]
      congr 2
      unfold lineSet
      simp only [List.map_cons, List.map_nil, TrimSpace_dropCR]
    · have hcur2 : '\n' ∉ cur ++ [c] := by
        simp only [List.mem_append, List.mem_singleton, not_or]
        exact ⟨hcur, fun e => hc e.symm⟩
      by_cases hbig : maxScanTokenSize ≤ n + (utf8Bytes c).length
      · simp [scanAll, hc, hbig] at hok
      · have h1 : scanAll (c :: rest) cur n
            = scanAll rest (cur ++ [c]) (n + (utf8Bytes c).length) := by
          simp [scanAll, hc, hbig]
        rw [h1] at hok ⊢
        have h0 := ih (cur ++ [c]) (n + (utf8Bytes c).length) s hcur2 hok
        rw [h0]
        simp

/-- What `NewTracker` does with an existing, readable backing file: when a line
fills the scanner's buffer the load fails, otherwise the set is the set of
trimmed non-empty lines. -/
theorem NewTracker_content (filePath data : List Char) :
    NewTracker filePath true (.content data) =
      if ∃ l ∈ splitLines data, maxScanTokenSize ≤ byteLen l then .error .readFile
      else .ok { ids := trimmedLines data, file := filePath } := by
  have h1 := scanAll_tooLong data [] 0 (by simp) (by simp [byteLen]) (by decide)
  rw [List.nil_append] at h1
  by_cases h : (scanAll data [] 0).2 = true
  · have h2 := h1.mp h
    simp [NewTracker, h, h2]
  · have h2 : ¬ ∃ l ∈ splitLines data, maxScanTokenSize ≤ byteLen l := fun e => h (h1.mpr e)
    have h3 : (scanAll data [] 0).2 = false := by simpa using h
    have h4 := scanAll_ids data [] 0 ∅ (by simp) h3
    rw [List.nil_append, Finset.empty_union] at h4
    rw [if_neg h2]
    simp [NewTracker, h3, h4]

/-! ## Lemmas: the round trip of the ledger -/

theorem splitLines_fileOfLines (L : List (List Char)) (h : ∀ id ∈ L, '\n' ∉ id) :
    splitLines (fileOfLines L) = L ++ [[]] := by
  induction L with
  | nil => rfl
  | cons id L ih =>
    have h1 : fileOfLines (id :: L) = id ++ '\n' :: fileOfLines L := by
      simp [fileOfLines]
    rw [h1, splitLines_line id _ (h id (List.mem_cons_self _ _)),
      ih fun x hx => h x (List.mem_cons_of_mem _ hx)]
    rfl

theorem lineSet_safe (L : List (List Char)) (h : ∀ id ∈ L, lineSafe id) :
    lineSet (L ++ [[]]) = L.toFinset := by
  induction L with
  | nil => exact lineSet_nil_line
  | cons id L ih =>
    have hid := h id (List.mem_cons_self _ _)
    rw [List.cons_append, lineSet_cons, ih fun x hx => h x (List.mem_cons_of_mem _ hx)]
    have h1 : lineSet [id] = {id} := by
      unfold lineSet
      simp [List.filter, hid.2.2.1, hid.1]
    rw [h1, List.toFinset_cons, Finset.insert_eq]

theorem NewTracker_fileOfLines (filePath : List Char) (L : List (List Char))
    (h : ∀ id ∈ L, lineSafe id) :
    NewTracker filePath true (.content (fileOfLines L)) =
      .ok { ids := L.toFinset, file := filePath } := by
  have hs := splitLines_fileOfLines L fun id hid => (h id hid).2.1
  rw [NewTracker_content, hs]
  have hshort : ¬ ∃ l ∈ L ++ [[]], maxScanTokenSize ≤ byteLen l := by
    rintro ⟨l, hl, hb⟩
    rcases List.mem_append.mp hl with hl | hl
    · have := (h l hl).2.2.2
      omega
    · rw [List.mem_singleton] at hl
      subst hl
      revert hb
      decide
  rw [if_neg hshort]
  unfold trimmedLines
  rw [hs, lineSet_safe L h]

theorem commitAll_spec (ids : List (List Char)) (hids : ∀ id ∈ ids, lineSafe id) :
    ∀ (t : Tracker) (disk : Option (List Char)) (L : List (List Char)),
      (∀ id ∈ L, lineSafe id) → disk.getD [] = fileOfLines L → (disk = none → L = []) →
      L.toFinset = t.ids →
      ∃ K : List (List Char), (∀ id ∈ K, lineSafe id) ∧
        (commitAll (t, disk) ids).2.getD [] = fileOfLines K ∧
        ((commitAll (t, disk) ids).2 = none → K = []) ∧
        K.toFinset = (commitAll (t, disk) ids).1.ids ∧
        (commitAll (t, disk) ids).1.ids = t.ids ∪ ids.toFinset ∧
        (commitAll (t, disk) ids).1.file = t.file := by
  induction ids with
  | nil =>
    intro t disk L hL hd hn hset
    exact ⟨L, hL, hd, hn, hset, by simp [commitAll], rfl⟩
  | cons id ids ih =>
    intro t disk L hL hd hn hset
    have hrest : ∀ x ∈ ids, lineSafe x := fun x hx => hids x (List.mem_cons_of_mem _ hx)
    by_cases hmem : id ∈ t.ids
    · have h1 : t.MarkSeen disk id .ok = { tracker := t, disk := disk, err := none } := by
        simp [Tracker.MarkSeen, hmem]
      obtain ⟨K, hK, hKd, hKn, hKs, hKu, hKf⟩ := ih hrest t disk L hL hd hn hset
      refine ⟨K, hK, ?_, ?_, ?_, ?_, ?_⟩
      · simpa [commitAll, h1] using hKd
      · simpa [commitAll, h1] using hKn
      · simpa [commitAll, h1] using hKs
      · simp only [commitAll, h1, hKu, List.toFinset_cons]
        ext x
        simp only [Finset.mem_union, Finset.mem_insert, List.mem_toFinset]
        constructor
        · rintro (h | h)
          · exact Or.inl h
          · exact Or.inr (Or.inr h)
        · rintro (h | h | h)
          · exact Or.inl h
          · exact Or.inl (h ▸ hmem)
          · exact Or.inr h
      · simpa [commitAll, h1] using hKf
    · have h1 : t.MarkSeen disk id .ok =
          { tracker := { t with ids := insert id t.ids },
            disk := some (disk.getD [] ++ (id ++ ['\n'])), err := none } := by
        simp [Tracker.MarkSeen, hmem]
      have hL2 : ∀ x ∈ L ++ [id], lineSafe x := by
        intro x hx
        rcases List.mem_append.mp hx with hx | hx
        · exact hL x hx
        · rw [List.mem_singleton] at hx
          exact hx ▸ hids id (List.mem_cons_self _ _)
      obtain ⟨K, hK, hKd, hKn, hKs, hKu, hKf⟩ :=
        ih hrest { t with ids := insert id t.ids } (some (disk.getD [] ++ (id ++ ['\n'])))
          (L ++ [id]) hL2 (by simp [hd, fileOfLines]) (by simp)
          (by
            ext x
            simp only [List.toFinset_append, List.toFinset_cons, List.toFinset_nil,
              Finset.mem_union, Finset.mem_insert, List.mem_toFinset, ← hset]
            simp [or_comm])
      refine ⟨K, hK, ?_, ?_, ?_, ?_, ?_⟩
      · simpa [commitAll, h1] using hKd
      · simpa [commitAll, h1] using hKn
      · simpa [commitAll, h1] using hKs
      · simp only [commitAll, h1, hKu, List.toFinset_cons]
        ext x
        simp only [Finset.mem_union, Finset.mem_insert, List.mem_toFinset]
        tauto
      · simpa [commitAll, h1] using hKf

/-! ## Lemmas: the loops of the receivers -/

theorem pop3_loop_seenIDs (r : POP3Receiver) (parse : List Nat → Option MailHeader)
    (retr : Int → Option (List Nat)) (cutoff : Int) (msgs : List POP3Msg) :
    ∀ st : FetchState, (r.fetchLoop parse retr cutoff msgs st).seenIDs = st.seenIDs := by
  induction msgs with
  | nil => intro st; rfl
  | cons msg rest ih =>
    intro st
    unfold POP3Receiver.fetchLoop
    split
    · exact ih st
    · split
      · exact ih st
      · split
        · exact ih st
        · rw [ih]

theorem pop3_loop_mem (r : POP3Receiver) (parse : List Nat → Option MailHeader)
    (retr : Int → Option (List Nat)) (cutoff : Int) (msgs : List POP3Msg) (e : Email) :
    ∀ st : FetchState, e ∈ (r.fetchLoop parse retr cutoff msgs st).emails ↔
      e ∈ st.emails ∨ ∃ msg ∈ msgs, ∃ raw, retr msg.ID = some raw ∧
        r.msgID parse msg raw ∉ st.seenIDs ∧
        (extractDate parse raw = 0 ∨ ¬ extractDate parse raw < cutoff) ∧
        e = r.emailOf parse msg raw := by
  induction msgs with
  | nil => intro st; simp [POP3Receiver.fetchLoop]
  | cons msg rest ih =>
    intro st
    unfold POP3Receiver.fetchLoop
    cases hr : retr msg.ID with
    | none =>
      simp only [ih, List.mem_cons, exists_eq_or_imp, hr]
      simp
    | some raw =>
      simp only
      by_cases hseen : r.msgID parse msg raw ∈ st.seenIDs
      · simp only [hseen, if_true, ih, List.mem_cons, exists_eq_or_imp, hr, Option.some.injEq]
        constructor
        · rintro (h | h)
          · exact Or.inl h
          · exact Or.inr (Or.inr h)
        · rintro (h | ⟨raw2, h2, h3, _⟩ | h)
          · exact Or.inl h
          · subst h2
            exact absurd hseen h3
          · exact Or.inr h
      · cases hold : (!isZeroTime (extractDate parse raw) &&
            timeBefore (extractDate parse raw) cutoff)
        · rw [if_neg hseen, if_neg (by simp [hold])]
          simp only [ih, List.mem_cons, exists_eq_or_imp, hr,
            Option.some.injEq, List.mem_append, List.not_mem_nil, or_false]
          have hz : extractDate parse raw = 0 ∨ ¬ extractDate parse raw < cutoff := by
            simp only [isZeroTime, timeBefore, Bool.and_eq_false_imp, Bool.not_eq_true',
              beq_eq_false_iff_ne, decide_eq_false_iff_not] at hold
            by_cases h0 : extractDate parse raw = 0
            · exact Or.inl h0
            · exact Or.inr (hold h0)
          constructor
          · rintro ((h | h) | h)
            · exact Or.inl h
            · exact Or.inr (Or.inl ⟨raw, rfl, hseen, hz, h⟩)
            · exact Or.inr (Or.inr h)
          · rintro (h | ⟨raw2, h2, _, _, h5⟩ | h)
            · exact Or.inl (Or.inl h)
            · subst h2
              exact Or.inl (Or.inr h5)
            · exact Or.inr h
        · rw [if_neg hseen, if_pos (by simp [hold])]
          simp only [ih, List.mem_cons, exists_eq_or_imp, hr, Option.some.injEq]
          have hz : ¬ (extractDate parse raw = 0 ∨ ¬ extractDate parse raw < cutoff) := by
            simp only [isZeroTime, timeBefore, Bool.and_eq_true, Bool.not_eq_true',
              beq_eq_false_iff_ne, decide_eq_true_eq] at hold
            rintro (h | h)
            · exact hold.1 h
            · exact h hold.2
          constructor
          · rintro (h | h)
            · exact Or.inl h
            · exact Or.inr (Or.inr h)
          · rintro (h | ⟨raw2, h2, _, h4, _⟩ | h)
            · exact Or.inl h
            · subst h2
              exact absurd h4 hz
            · exact Or.inr h

theorem imap_loop_seenIDs (r : IMAPReceiver) (buffers : List FetchMessageBuffer) :
    ∀ st : FetchState, (r.fetchLoop buffers st).seenIDs = st.seenIDs := by
  induction buffers with
  | nil => intro st; rfl
  | cons buf rest ih =>
    intro st
    unfold IMAPReceiver.fetchLoop
    split
    · exact ih st
    · split
      · exact ih st
      · rw [ih]

theorem imap_loop_mem (r : IMAPReceiver) (buffers : List FetchMessageBuffer) (e : Email) :
    ∀ st : FetchState, e ∈ (r.fetchLoop buffers st).emails ↔
      e ∈ st.emails ∨ ∃ buf ∈ buffers, r.msgID buf ∉ st.seenIDs ∧ buf.body.length ≠ 0 ∧
        e = r.emailOf buf := by
  induction buffers with
  | nil => intro st; simp [IMAPReceiver.fetchLoop]
  | cons buf rest ih =>
    intro st
    unfold IMAPReceiver.fetchLoop
    by_cases hseen : r.msgID buf ∈ st.seenIDs
    · simp only [hseen, if_true, ih, List.mem_cons, exists_eq_or_imp]
      tauto
    · by_cases hbody : buf.body.length = 0
      · simp only [hseen, if_false, hbody, if_true, ih, List.mem_cons, exists_eq_or_imp]
        tauto
      · rw [if_neg hseen, if_neg hbody]
        simp only [ih, List.mem_cons, exists_eq_or_imp,
          List.mem_append, List.not_mem_nil, or_false]
        constructor
        · rintro ((h | h) | h)
          · exact Or.inl h
          · exact Or.inr (Or.inl ⟨hseen, hbody, h⟩)
          · exact Or.inr (Or.inr h)
        · rintro (h | ⟨_, _, h3⟩ | h)
          · exact Or.inl (Or.inl h)
          · exact Or.inl (Or.inr h3)
          · exact Or.inr h

/-! ## Lemmas: the loop of the forwarder -/

theorem MarkSeen_ids (t : Tracker) (disk : Option (List Char)) (id : List Char)
    (o : AppendOutcome) : (t.MarkSeen disk id o).tracker.ids = insert id t.ids := by
  unfold Tracker.MarkSeen
  by_cases h : id ∈ t.ids
  · simp [h]
  · cases o <;> simp [h]

theorem MarkSeen_disk (t : Tracker) (disk : Option (List Char)) (id : List Char)
    (o : AppendOutcome) :
    ∃ seg, (t.MarkSeen disk id o).disk.getD [] = disk.getD [] ++ seg ∧
      seg <+: id ++ ['\n'] := by
  unfold Tracker.MarkSeen
  by_cases h : id ∈ t.ids
  · exact ⟨[], by simp [h], List.nil_prefix⟩
  · cases o with
    | ok => exact ⟨id ++ ['\n'], by simp [h], List.prefix_refl _⟩
    | openFails => exact ⟨[], by simp [h], List.nil_prefix⟩
    | writeFails n => exact ⟨(id ++ ['\n']).take n, by simp [h], List.take_prefix _ _⟩

theorem pollLoop_trace (f : Forwarder)
    (relay : Nat → List Nat → List Char → List Char → Option SenderError)
    (append : Nat → AppendOutcome) (emails : List Email) :
    ∀ (i : Nat) (st : PollState),
      (f.pollLoop relay append i emails st).trace =
        st.trace ++ (emails.enumFrom i).flatMap (roundEvents f relay) := by
  induction emails with
  | nil => intro i st; simp [Forwarder.pollLoop]
  | cons e rest ih =>
    intro i st
    unfold Forwarder.pollLoop
    cases hr : relay i e.Content f.account.ForwardTo e.ID with
    | some err => simp [ih, roundEvents, hr]
    | none => simp [ih, roundEvents, hr]

theorem pollLoop_ids (f : Forwarder)
    (relay : Nat → List Nat → List Char → List Char → Option SenderError)
    (append : Nat → AppendOutcome) (emails : List Email) :
    ∀ (i : Nat) (st : PollState),
      (f.pollLoop relay append i emails st).tracker.ids =
        st.tracker.ids ∪ ((relayed f relay i emails).map fun p => p.2.ID).toFinset := by
  induction emails with
  | nil => intro i st; simp [Forwarder.pollLoop, relayed]
  | cons e rest ih =>
    intro i st
    unfold Forwarder.pollLoop
    cases hr : relay i e.Content f.account.ForwardTo e.ID with
    | some err =>
      simp only [ih]
      have : relayed f relay i (e :: rest) = relayed f relay (i + 1) rest := by
        simp [relayed, List.filter, hr]
      rw [this]
    | none =>
      simp only [ih, MarkSeen_ids]
      have : relayed f relay i (e :: rest) = (i, e) :: relayed f relay (i + 1) rest := by
        simp [relayed, List.filter, hr]
      rw [this]
      ext x
      simp only [Finset.mem_union, Finset.mem_insert, List.map_cons, List.toFinset_cons]
      tauto

theorem pollLoop_disk (f : Forwarder)
    (relay : Nat → List Nat → List Char → List Char → Option SenderError)
    (append : Nat → AppendOutcome) (emails : List Email) :
    ∀ (i : Nat) (st : PollState),
      ∃ segs : List (List Char),
        (f.pollLoop relay append i emails st).disk.getD [] = st.disk.getD [] ++ segs.flatten ∧
        ∀ seg ∈ segs, ∃ p ∈ relayed f relay i emails, seg <+: p.2.ID ++ ['\n'] := by
  induction emails with
  | nil => intro i st; exact ⟨[], by simp [Forwarder.pollLoop], by simp⟩
  | cons e rest ih =>
    intro i st
    unfold Forwarder.pollLoop
    cases hr : relay i e.Content f.account.ForwardTo e.ID with
    | some err =>
      have hrel : relayed f relay i (e :: rest) = relayed f relay (i + 1) rest := by
        simp [relayed, List.filter, hr]
      obtain ⟨segs, h1, h2⟩ := ih (i + 1)
        { st with trace := st.trace ++ [.forward e.Content f.account.ForwardTo e.ID false] }
      exact ⟨segs, h1, by rw [hrel]; exact h2⟩
    | none =>
      have hrel : relayed f relay i (e :: rest) = (i, e) :: relayed f relay (i + 1) rest := by
        simp [relayed, List.filter, hr]
      obtain ⟨seg, hs1, hs2⟩ := MarkSeen_disk st.tracker st.disk e.ID (append i)
      obtain ⟨segs, h1, h2⟩ := ih (i + 1)
        { tracker := (st.tracker.MarkSeen st.disk e.ID (append i)).tracker,
          disk := (st.tracker.MarkSeen st.disk e.ID (append i)).disk,
          trace := st.trace ++
            [.forward e.Content f.account.ForwardTo e.ID true, .markSeen e.ID] }
      refine ⟨seg :: segs, ?_, ?_⟩
      · simp only at h1
        rw [h1, hs1]
        simp
      · intro s hs
        rw [hrel]
        rcases List.mem_cons.mp hs with hs | hs
        · exact ⟨(i, e), List.mem_cons_self _ _, hs ▸ hs2⟩
        · obtain ⟨p, hp1, hp2⟩ := h2 s hs
          exact ⟨p, List.mem_cons_of_mem _ hp1, hp2⟩

theorem forwardCalls_rounds (f : Forwarder)
    (relay : Nat → List Nat → List Char → List Char → Option SenderError)
    (emails : List Email) :
    ∀ i : Nat, forwardCalls ((emails.enumFrom i).flatMap (roundEvents f relay)) =
      emails.map fun e => (e.Content, f.account.ForwardTo, e.ID) := by
  induction emails with
  | nil => intro i; rfl
  | cons e rest ih =>
    intro i
    have h := ih (i + 1)
    unfold forwardCalls at h ⊢
    simp only [List.enumFrom_cons, List.flatMap_cons, List.filterMap_append, h, List.map_cons]
    cases hr : relay i e.Content f.account.ForwardTo e.ID with
    | some err => simp [roundEvents, hr]
    | none => simp [roundEvents, hr]

theorem markSeenCalls_rounds (f : Forwarder)
    (relay : Nat → List Nat → List Char → List Char → Option SenderError)
    (emails : List Email) :
    ∀ i : Nat, markSeenCalls ((emails.enumFrom i).flatMap (roundEvents f relay)) =
      (relayed f relay i emails).map fun p => p.2.ID := by
  induction emails with
  | nil => intro i; rfl
  | cons e rest ih =>
    intro i
    have h := ih (i + 1)
    unfold markSeenCalls at h ⊢
    simp only [List.enumFrom_cons, List.flatMap_cons, List.filterMap_append, h]
    cases hr : relay i e.Content f.account.ForwardTo e.ID with
    | some err => simp [roundEvents, hr, relayed, List.filter]
    | none => simp [roundEvents, hr, relayed, List.filter]

theorem rounds_markSeen_after_forward (f : Forwarder)
    (relay : Nat → List Nat → List Char → List Char → Option SenderError)
    (emails : List Email) :
    ∀ (i : Nat) (pre post : List PollEvent) (id : List Char),
      (emails.enumFrom i).flatMap (roundEvents f relay) = pre ++ .markSeen id :: post →
      ∃ pre2 c d, pre = pre2 ++ [.forward c d id true] := by
  induction emails with
  | nil =>
    intro i pre post id h
    simp at h
  | cons e rest ih =>
    intro i pre post id h
    simp only [List.enumFrom_cons, List.flatMap_cons] at h
    cases hr : relay i e.Content f.account.ForwardTo e.ID with
    | some err =>
      simp only [roundEvents, hr, List.singleton_append] at h
      cases pre with
      | nil => simp at h
      | cons x pre1 =>
        simp only [List.cons_append, List.cons.injEq] at h
        obtain ⟨pre2, c, d, h2⟩ := ih (i + 1) pre1 post id h.2
        exact ⟨x :: pre2, c, d, by simp [h2]⟩
    | none =>
      simp only [roundEvents, hr, List.cons_append, List.nil_append] at h
      cases pre with
      | nil => simp at h
      | cons x pre1 =>
        simp only [List.cons_append, List.cons.injEq] at h
        cases pre1 with
        | nil =>
          simp only [List.nil_append, List.cons.injEq, PollEvent.markSeen.injEq] at h
          exact ⟨[], e.Content, f.account.ForwardTo, by simp [← h.1, ← h.2.1]⟩
        | cons y pre3 =>
          simp only [List.cons_append, List.cons.injEq] at h
          obtain ⟨pre2, c, d, h2⟩ := ih (i + 1) pre3 post id h.2.2
          exact ⟨x :: y :: pre2, c, d, by simp [h2]⟩

/-! ## The claims about the ledger -/

/-- C2, the claim as stated, fails: the identifier " a" (a leading blank) is
committed to a fresh ledger, the append succeeds, and the reloaded ledger holds
"a" and not " a". -/
theorem C2_counterexample :
    (reloadAfter "data/acct.seen".data [" a".data]).toOption.map Tracker.SeenIDs
        = some {"a".data} ∧
      (reloadAfter "data/acct.seen".data [" a".data]).toOption.map Tracker.SeenIDs
        ≠ some ([" a".data].toFinset) := by
  decide

/-- C2 (amended). Durability round trip: for every sequence of identifiers that
are not empty, hold no newline, have no white space at either end and are
shorter than the scanner's 65536-byte buffer, committed with MarkSeen to a
ledger created by NewTracker on an absent file with every append succeeding,
NewTracker on the resulting file succeeds and its seen-set is the set of the
committed identifiers. -/
theorem C2_durability_round_trip (filePath : List Char) (ids : List (List Char))
    (h : ∀ id ∈ ids, lineSafe id) :
    reloadAfter filePath ids = .ok { ids := ids.toFinset, file := filePath } := by
  have h0 : NewTracker filePath true .notExist = .ok { ids := ∅, file := filePath } := rfl
  obtain ⟨K, hK, hKd, hKn, hKs, hKu, _⟩ :=
    commitAll_spec ids h { ids := ∅, file := filePath } none [] (by simp) rfl (fun _ => rfl) rfl
  have hset : K.toFinset = ids.toFinset := by
    rw [hKs, hKu]
    simp
  unfold reloadAfter
  rw [h0]
  simp only
  cases hd : (commitAll ({ ids := ∅, file := filePath }, none) ids).2 with
  | none =>
    have hKnil := hKn hd
    rw [hKnil] at hset
    simp only [openDisk]
    rw [h0, ← hset]
    rfl
  | some data =>
    rw [hd] at hKd
    simp only [Option.getD_some] at hKd
    simp only [openDisk]
    rw [hKd, NewTracker_fileOfLines filePath K hK, hset]

/-- A witness of C2 (amended): the identifiers "m1", "m2", "m1". -/
theorem C2_durability_round_trip_witness :
    (∀ id ∈ ["m1".data, "m2".data, "m1".data], lineSafe id) ∧
    reloadAfter "data/acct.seen".data ["m1".data, "m2".data, "m1".data]
      = .ok { ids := ["m1".data, "m2".data, "m1".data].toFinset, file := "data/acct.seen".data } :=
  ⟨by decide,
    C2_durability_round_trip "data/acct.seen".data ["m1".data, "m2".data, "m1".data] (by decide)⟩

/-- C4. Idempotent commit: MarkSeen(id) with id already in the seen-set returns
no error, leaves the in-memory set unchanged and appends nothing to the backing
file; and after any first MarkSeen(id), whatever happened to its append, a second
MarkSeen(id) returns no error and leaves the seen-set and the file as the first
call left them. -/
theorem C4_MarkSeen_idempotent (t : Tracker) (disk : Option (List Char)) (id : List Char)
    (o1 o2 : AppendOutcome) :
    (id ∈ t.SeenIDs → t.MarkSeen disk id o1 = { tracker := t, disk := disk, err := none }) ∧
    (t.MarkSeen disk id o1).tracker.MarkSeen (t.MarkSeen disk id o1).disk id o2 =
      { tracker := (t.MarkSeen disk id o1).tracker, disk := (t.MarkSeen disk id o1).disk,
        err := none } := by
  constructor
  · intro h
    simp only [Tracker.SeenIDs] at h
    simp [Tracker.MarkSeen, h]
  · have hin : id ∈ (t.MarkSeen disk id o1).tracker.ids := by
      unfold Tracker.MarkSeen
      by_cases h : id ∈ t.ids
      · simp [h]
      · cases o1 <;> simp [h]
    generalize t.MarkSeen disk id o1 = r at hin
    simp [Tracker.MarkSeen, hin]

/-- A witness of C4: the ledger holds "m1" and "m1" is committed again. -/
theorem C4_MarkSeen_idempotent_witness :
    "m1".data ∈ Tracker.SeenIDs { ids := {"m1".data}, file := "d/a.seen".data } ∧
    Tracker.MarkSeen { ids := {"m1".data}, file := "d/a.seen".data } (some "m1\n".data) "m1".data
        .openFails
      = { tracker := { ids := {"m1".data}, file := "d/a.seen".data }, disk := some "m1\n".data,
          err := none } :=
  ⟨by decide,
    (C4_MarkSeen_idempotent { ids := {"m1".data}, file := "d/a.seen".data } (some "m1\n".data)
      "m1".data .openFails .ok).1 (by decide)⟩

theorem byteLen_replicate_a (n : Nat) : byteLen (List.replicate n 'a') = n := by
  induction n with
  | zero => rfl
  | succ n ih =>
    rw [List.replicate_succ, ← List.singleton_append, byteLen_append, ih, byteLen_singleton]
    have : (utf8Bytes 'a').length = 1 := by decide
    omega

/-- C6, the claim as stated, fails: on a backing file that holds one line of
70000 letters the scanner stops with its token-too-long error and NewTracker
returns the error "read dedup file" instead of a ledger. -/
theorem C6_counterexample :
    NewTracker "data/acct.seen".data true (.content (List.replicate 70000 'a'))
      = .error .readFile := by
  rw [NewTracker_content, if_pos]
  refine ⟨List.replicate 70000 'a', ?_, ?_⟩
  · rw [splitLines_no_newline]
    · exact List.mem_singleton_self _
    · intro h
      have := List.eq_of_mem_replicate h
      revert this
      decide
  · rw [byteLen_replicate_a]
    decide

/-- C6 (amended). With the directory created and the file opened: for every
backing-file content whose lines are each shorter than 65536 bytes (the buffer
of the scanner) NewTracker succeeds and its seen-set is exactly the set of
white-space-trimmed, non-empty lines of the file, so that "abc\n\ndef\n"
yields the set of "abc" and "def"; a content with a line of 65536 bytes or more makes
NewTracker return its read error; and when the file does not exist NewTracker
succeeds with an empty set and Count() = 0. -/
theorem C6_NewTracker_loads_trimmed_lines (filePath data : List Char) :
    ((∀ l ∈ splitLines data, byteLen l < maxScanTokenSize) →
      NewTracker filePath true (.content data)
        = .ok { ids := trimmedLines data, file := filePath }) ∧
    ((∃ l ∈ splitLines data, maxScanTokenSize ≤ byteLen l) →
      NewTracker filePath true (.content data) = .error .readFile) ∧
    NewTracker filePath true (.content "abc\n\ndef\n".data)
      = .ok { ids := {"abc".data, "def".data}, file := filePath } ∧
    NewTracker filePath true .notExist = .ok { ids := ∅, file := filePath } ∧
    (NewTracker filePath true .notExist).toOption.map Tracker.Count = some 0 := by
  refine ⟨?_, ?_, ?_, rfl, rfl⟩
  · intro h
    rw [NewTracker_content, if_neg]
    rintro ⟨l, hl, hb⟩
    have := h l hl
    omega
  · intro h
    rw [NewTracker_content, if_pos h]
  · rw [NewTracker_content, if_neg (by decide)]
    have : trimmedLines "abc\n\ndef\n".data = {"abc".data, "def".data} := by decide
    rw [this]

/-- A witness of C6 (amended): the backing file "abc\n\ndef\n". -/
theorem C6_NewTracker_loads_trimmed_lines_witness :
    (∀ l ∈ splitLines "abc\n\ndef\n".data, byteLen l < maxScanTokenSize) ∧
    NewTracker "d/a.seen".data true (.content "abc\n\ndef\n".data)
      = .ok { ids := trimmedLines "abc\n\ndef\n".data, file := "d/a.seen".data } :=
  ⟨by decide,
    (C6_NewTracker_loads_trimmed_lines "d/a.seen".data "abc\n\ndef\n".data).1 (by decide)⟩

/-! ## Lemmas: fetch and poll -/

/-- After a successful fetch `poll` is its loop over the fetched messages. -/
theorem poll_of_fetch_ok (f : Forwarder)
    (fetch : Finset (List Char) → Int → Except ReceiverError (List Email))
    (relay : Nat → List Nat → List Char → List Char → Option SenderError)
    (append : Nat → AppendOutcome) (tracker : Tracker) (disk : Option (List Char))
    (emails : List Email)
    (hfetch : fetch tracker.SeenIDs f.account.GetProcessDays = .ok emails) :
    f.poll fetch relay append tracker disk =
      f.pollLoop relay append 0 emails { tracker := tracker, disk := disk, trace := [] } := by
  unfold Forwarder.poll
  rw [hfetch]
  cases emails with
  | nil => simp [Forwarder.pollLoop]
  | cons e rest => simp

/-- What `Fetch` of POP3 returns once connected, authenticated and given the list. -/
theorem pop3_Fetch_ok (r : POP3Receiver) (parse : List Nat → Option MailHeader) (clock : Clock)
    (srv : POP3Server) (seen : Finset (List Char)) (days : Int) (msgs : List POP3Msg)
    (hc : srv.connect = true) (ha : srv.auth = true) (hl : srv.list = some msgs) :
    (r.Fetch parse clock srv seen days).result =
      .ok (r.fetchLoop parse srv.retr (clock.addDays clock.now (-days)) msgs
        { seenIDs := seen, emails := [] }).emails := by
  simp [POP3Receiver.Fetch, hc, ha, hl]

/-- Every message `Fetch` of POP3 returns comes from a listed, retrieved message
and its identifier is outside the snapshot. -/
theorem pop3_Fetch_mem (pr : POP3Receiver) (parse : List Nat → Option MailHeader)
    (clock : Clock) (psrv : POP3Server) (seen : Finset (List Char)) (days : Int)
    (emails : List Email) (hres : (pr.Fetch parse clock psrv seen days).result = .ok emails)
    (e : Email) (he : e ∈ emails) :
    e.ID ∉ seen ∧
      ∃ msgs msg raw, psrv.list = some msgs ∧ msg ∈ msgs ∧ psrv.retr msg.ID = some raw ∧
        e = pr.emailOf parse msg raw := by
  cases hc : psrv.connect with
  | false => simp [POP3Receiver.Fetch, hc] at hres
  | true =>
    cases ha : psrv.auth with
    | false => simp [POP3Receiver.Fetch, hc, ha] at hres
    | true =>
      cases hl : psrv.list with
      | none => simp [POP3Receiver.Fetch, hc, ha, hl] at hres
      | some msgs =>
        rw [pop3_Fetch_ok pr parse clock psrv seen days msgs hc ha hl] at hres
        have hres2 := Except.ok.inj hres
        rw [← hres2, pop3_loop_mem] at he
        rcases he with he | ⟨msg, hmsg, raw, hraw, hns, _, heq⟩
        · simp at he
        · refine ⟨?_, msgs, msg, raw, rfl, hmsg, hraw, heq⟩
          rw [heq]
          exact hns

/-- Every message `Fetch` of IMAP returns comes from a collected message and its
identifier is outside the snapshot. -/
theorem imap_Fetch_mem (ir : IMAPReceiver) (clock : Clock) (isrv : IMAPServer)
    (seen : Finset (List Char)) (days : Int) (emails : List Email)
    (hres : (ir.Fetch clock isrv seen days).result = .ok emails) (e : Email) (he : e ∈ emails) :
    e.ID ∉ seen ∧ ∃ buf, e = ir.emailOf buf := by
  unfold IMAPReceiver.Fetch at hres
  split at hres
  · cases hres
  · split at hres
    · cases hres
    · split at hres
      · cases hres
      · split at hres
        · cases hres
        · split at hres
          · have hres2 := Except.ok.inj hres
            rw [← hres2] at he
            simp at he
          · split at hres
            · cases hres
            · have hres2 := Except.ok.inj hres
              rw [← hres2, imap_loop_mem] at he
              rcases he with he | ⟨buf, _, hns, _, heq⟩
              · simp at he
              · refine ⟨?_, buf, heq⟩
                rw [heq]
                exact hns

/-- A poll whose receiver leaves out the identifiers of the snapshot makes no
`Forward` call for an identifier that is in the ledger. -/
theorem poll_no_forward_of_seen (f : Forwarder)
    (fetch : Finset (List Char) → Int → Except ReceiverError (List Email))
    (relay : Nat → List Nat → List Char → List Char → Option SenderError)
    (append : Nat → AppendOutcome) (tracker : Tracker) (disk : Option (List Char))
    (id : List Char)
    (hex : ∀ emails, fetch tracker.SeenIDs f.account.GetProcessDays = .ok emails →
      ∀ e ∈ emails, e.ID ∉ tracker.SeenIDs)
    (hid : id ∈ tracker.SeenIDs) (c : List Nat) (d : List Char) :
    (c, d, id) ∉ forwardCalls (f.poll fetch relay append tracker disk).trace := by
  cases hf : fetch tracker.SeenIDs f.account.GetProcessDays with
  | error err => simp [Forwarder.poll, hf, forwardCalls]
  | ok emails =>
    rw [poll_of_fetch_ok f fetch relay append tracker disk emails hf, pollLoop_trace,
      List.nil_append, forwardCalls_rounds]
    intro hmem
    rw [List.mem_map] at hmem
    obtain ⟨e, he, heq⟩ := hmem
    have h1 : e.ID = id := by
      have := congrArg (fun t => t.2.2) heq
      simpa using this
    exact hex emails hf e he (h1 ▸ hid)

/-! ## The claims about the forwarder -/

/-- In a fetch result with pairwise distinct identifiers, a message whose Forward
fails is none of the relayed ones. -/
theorem failed_not_relayed (f : Forwarder)
    (relay : Nat → List Nat → List Char → List Char → Option SenderError)
    (emails : List Email) (hdistinct : (emails.map Email.ID).Nodup) (i : Nat) (e : Email)
    (he : emails[i]? = some e)
    (hfail : relay i e.Content f.account.ForwardTo e.ID ≠ none) :
    e.ID ∉ ((relayed f relay 0 emails).map fun p => p.2.ID).toFinset := by
  intro hmem
  rw [List.mem_toFinset, List.mem_map] at hmem
  obtain ⟨p, hp, hpid⟩ := hmem
  unfold relayed at hp
  rw [List.mem_filter] at hp
  obtain ⟨hp1, hp2⟩ := hp
  have hget : emails[p.1 - 0]? = some p.2 :=
    (List.mk_mem_enumFrom_iff_le_and_getElem?_sub.mp hp1).2
  rw [Nat.sub_zero] at hget
  have h1 : (emails.map Email.ID)[i]? = some e.ID := by simp [he]
  have h2 : (emails.map Email.ID)[p.1]? = some e.ID := by simp [hget, hpid]
  have hlt1 : i < (emails.map Email.ID).length := by
    by_contra hcon
    rw [List.getElem?_eq_none (by omega)] at h1
    cases h1
  have hlt2 : p.1 < (emails.map Email.ID).length := by
    by_contra hcon
    rw [List.getElem?_eq_none (by omega)] at h2
    cases h2
  have hnd := List.nodup_iff_getElem?_ne_getElem?.mp hdistinct
  have hidx : i = p.1 := by
    rcases Nat.lt_trichotomy i p.1 with h | h | h
    · exact absurd (h1.trans h2.symm) (hnd i p.1 h hlt2)
    · exact h
    · exact absurd (h2.trans h1.symm) (hnd p.1 i h hlt1)
  rw [← hidx, he] at hget
  have hpe : e = p.2 := Option.some.inj hget
  rw [← hidx, ← hpe] at hp2
  cases hrel : relay i e.Content f.account.ForwardTo e.ID with
  | none => exact hfail hrel
  | some err => simp [hrel] at hp2

/-- C1. For every successful fetch result of N messages with pairwise distinct
identifiers and every per-message outcome of the relay (and of the appends), one
run of poll makes exactly N Forward calls, one per returned message in the
returned order; it calls MarkSeen exactly for the messages whose Forward returned
no error, each call coming right after the successful Forward of the same
message; every message whose Forward failed is in the in-memory set afterwards
only if it was in it before; and what the run adds to the backing file are
(beginnings of) the lines of relayed messages only. -/
theorem C1_poll_relays_then_commits (f : Forwarder)
    (fetch : Finset (List Char) → Int → Except ReceiverError (List Email))
    (relay : Nat → List Nat → List Char → List Char → Option SenderError)
    (append : Nat → AppendOutcome) (tracker : Tracker) (disk : Option (List Char))
    (emails : List Email)
    (hfetch : fetch tracker.SeenIDs f.account.GetProcessDays = .ok emails)
    (hdistinct : (emails.map Email.ID).Nodup) :
    forwardCalls (f.poll fetch relay append tracker disk).trace =
      (emails.map fun e => (e.Content, f.account.ForwardTo, e.ID)) ∧
    (forwardCalls (f.poll fetch relay append tracker disk).trace).length = emails.length ∧
    markSeenCalls (f.poll fetch relay append tracker disk).trace =
      ((relayed f relay 0 emails).map fun p => p.2.ID) ∧
    (∀ pre post id, (f.poll fetch relay append tracker disk).trace = pre ++ .markSeen id :: post →
      ∃ pre2 c d, pre = pre2 ++ [.forward c d id true]) ∧
    (∀ i e, emails[i]? = some e → relay i e.Content f.account.ForwardTo e.ID ≠ none →
      e.ID ∈ (f.poll fetch relay append tracker disk).tracker.ids → e.ID ∈ tracker.ids) ∧
    (∃ segs : List (List Char),
      (f.poll fetch relay append tracker disk).disk.getD [] = disk.getD [] ++ segs.flatten ∧
      ∀ seg ∈ segs, ∃ p ∈ relayed f relay 0 emails, seg <+: p.2.ID ++ ['\n']) := by
  rw [poll_of_fetch_ok f fetch relay append tracker disk emails hfetch]
  have htrace := pollLoop_trace f relay append emails 0
    { tracker := tracker, disk := disk, trace := [] }
  simp only [List.nil_append] at htrace
  refine ⟨?_, ?_, ?_, ?_, ?_, ?_⟩
  · rw [htrace, forwardCalls_rounds]
  · rw [htrace, forwardCalls_rounds, List.length_map]
  · rw [htrace, markSeenCalls_rounds]
  · intro pre post id h
    rw [htrace] at h
    exact rounds_markSeen_after_forward f relay emails 0 pre post id h
  · intro i e he hfail hin
    rw [pollLoop_ids, Finset.mem_union] at hin
    rcases hin with hin | hin
    · exact hin
    · exact absurd hin (failed_not_relayed f relay emails hdistinct i e he hfail)
  · exact pollLoop_disk f relay append emails 0 { tracker := tracker, disk := disk, trace := [] }

/-- A witness of C1: the mailbox of the examples yields "m2" and "m3"; Forward
succeeds for "m2" and fails for "m3"; there are two Forward calls and one
MarkSeen call, for "m2". -/
theorem C1_poll_relays_then_commits_witness :
    demoFetch demoTracker.SeenIDs demoForwarder.account.GetProcessDays
      = .ok [{ ID := "m2".data, Date := 0, Content := [2] },
             { ID := "m3".data, Date := 950, Content := [3] }] ∧
    ([({ ID := "m2".data, Date := 0, Content := [2] } : Email),
      { ID := "m3".data, Date := 950, Content := [3] }].map Email.ID).Nodup ∧
    forwardCalls (demoForwarder.poll demoFetch demoRelay (fun _ => .ok) demoTracker none).trace
      = [([2], "bob@example.org".data, "m2".data), ([3], "bob@example.org".data, "m3".data)] ∧
    markSeenCalls (demoForwarder.poll demoFetch demoRelay (fun _ => .ok) demoTracker none).trace
      = ["m2".data] :=
  ⟨by decide, by decide,
    (C1_poll_relays_then_commits demoForwarder demoFetch demoRelay (fun _ => .ok) demoTracker none
      [{ ID := "m2".data, Date := 0, Content := [2] },
       { ID := "m3".data, Date := 950, Content := [3] }] (by decide) (by decide)).1,
    by decide⟩

/-- C3, the claim as stated, fails. The mailbox of the examples yields "m2" and
"m3", Forward succeeds for "m2", and the MarkSeen that follows returns an error
because the backing file cannot be opened for append. The identifier "m2" is
then in the seen-set snapshot of the next poll of the same process, "m2" is not
fetched again, and the only Forward call of that poll is for "m3". -/
theorem C3_counterexample :
    (demoForwarder.poll demoFetch demoRelay (fun _ => .openFails) demoTracker none).trace
      = [.forward [2] "bob@example.org".data "m2".data true, .markSeen "m2".data,
         .forward [3] "bob@example.org".data "m3".data false] ∧
    (demoTracker.MarkSeen none "m2".data .openFails).err = some .openAppend ∧
    "m2".data ∈
      (demoForwarder.poll demoFetch demoRelay (fun _ => .openFails) demoTracker none).tracker.SeenIDs ∧
    demoFetch
      (demoForwarder.poll demoFetch demoRelay (fun _ => .openFails) demoTracker none).tracker.SeenIDs
      demoForwarder.account.GetProcessDays
      = .ok [{ ID := "m3".data, Date := 950, Content := [3] }] ∧
    forwardCalls (demoForwarder.poll demoFetch (fun _ _ _ _ => none) (fun _ => .ok)
      (demoForwarder.poll demoFetch demoRelay (fun _ => .openFails) demoTracker none).tracker
      (demoForwarder.poll demoFetch demoRelay (fun _ => .openFails) demoTracker none).disk).trace
      = [([3], "bob@example.org".data, "m3".data)] := by
  decide

/-- C3 (amended). MarkSeen puts the identifier into the in-memory set before it
appends to the file, so when it returns an error the identifier is in the
seen-set all the same (and when the file could not be opened the file is as
before). Hence for a message whose relay succeeds, whatever happens to the
append of the MarkSeen that follows, the identifier is in the seen-set snapshot
taken by the next poll of the same process; the POP3 and the IMAP adapter then
leave the message out, and that poll makes no Forward call for it. -/
theorem C3_failed_commit_is_seen_in_process (f : Forwarder)
    (fetch : Finset (List Char) → Int → Except ReceiverError (List Email))
    (relay : Nat → List Nat → List Char → List Char → Option SenderError)
    (append : Nat → AppendOutcome) (tracker : Tracker) (disk : Option (List Char))
    (emails : List Email) (i : Nat) (e : Email)
    (hfetch : fetch tracker.SeenIDs f.account.GetProcessDays = .ok emails)
    (he : emails[i]? = some e)
    (hrel : relay i e.Content f.account.ForwardTo e.ID = none) :
    (∀ (t : Tracker) (d : Option (List Char)) (id : List Char) (o : AppendOutcome),
      (t.MarkSeen d id o).err ≠ none → id ∈ (t.MarkSeen d id o).tracker.SeenIDs) ∧
    (∀ (t : Tracker) (d : Option (List Char)) (id : List Char),
      (t.MarkSeen d id .openFails).disk = d) ∧
    e.ID ∈ (f.poll fetch relay append tracker disk).tracker.SeenIDs ∧
    (∀ (pr : POP3Receiver) (parse : List Nat → Option MailHeader) (clock : Clock)
      (psrv : POP3Server) (relay2 : Nat → List Nat → List Char → List Char → Option SenderError)
      (append2 : Nat → AppendOutcome) (c : List Nat) (d : List Char),
      (c, d, e.ID) ∉ forwardCalls
        (f.poll (fun seen days => (pr.Fetch parse clock psrv seen days).result) relay2 append2
          (f.poll fetch relay append tracker disk).tracker
          (f.poll fetch relay append tracker disk).disk).trace) ∧
    (∀ (ir : IMAPReceiver) (clock : Clock) (isrv : IMAPServer)
      (relay2 : Nat → List Nat → List Char → List Char → Option SenderError)
      (append2 : Nat → AppendOutcome) (c : List Nat) (d : List Char),
      (c, d, e.ID) ∉ forwardCalls
        (f.poll (fun seen days => (ir.Fetch clock isrv seen days).result) relay2 append2
          (f.poll fetch relay append tracker disk).tracker
          (f.poll fetch relay append tracker disk).disk).trace) := by
  have hin : e.ID ∈ (f.poll fetch relay append tracker disk).tracker.SeenIDs := by
    rw [poll_of_fetch_ok f fetch relay append tracker disk emails hfetch]
    unfold Tracker.SeenIDs
    rw [pollLoop_ids, Finset.mem_union]
    right
    rw [List.mem_toFinset, List.mem_map]
    refine ⟨(i, e), ?_, rfl⟩
    unfold relayed
    rw [List.mem_filter]
    refine ⟨?_, by simp [hrel]⟩
    rw [List.mk_mem_enumFrom_iff_le_and_getElem?_sub]
    exact ⟨Nat.zero_le _, by simpa using he⟩
  refine ⟨?_, ?_, hin, ?_, ?_⟩
  · intro t d id o _
    unfold Tracker.SeenIDs
    rw [MarkSeen_ids]
    exact Finset.mem_insert_self _ _
  · intro t d id
    unfold Tracker.MarkSeen
    by_cases h : id ∈ t.ids
    · simp [h]
    · simp [h]
  · intro pr parse clock psrv relay2 append2 c d
    exact poll_no_forward_of_seen f _ relay2 append2 _ _ e.ID
      (fun emails2 h2 e2 he2 => (pop3_Fetch_mem pr parse clock psrv _ _ emails2 h2 e2 he2).1)
      hin c d
  · intro ir clock isrv relay2 append2 c d
    exact poll_no_forward_of_seen f _ relay2 append2 _ _ e.ID
      (fun emails2 h2 e2 he2 => (imap_Fetch_mem ir clock isrv _ _ emails2 h2 e2 he2).1)
      hin c d

/-- A witness of C3 (amended): the first message of the mailbox of the examples,
"m2", is relayed and the append of its MarkSeen fails. -/
theorem C3_failed_commit_is_seen_in_process_witness :
    demoFetch demoTracker.SeenIDs demoForwarder.account.GetProcessDays
      = .ok [{ ID := "m2".data, Date := 0, Content := [2] },
             { ID := "m3".data, Date := 950, Content := [3] }] ∧
    [({ ID := "m2".data, Date := 0, Content := [2] } : Email),
      { ID := "m3".data, Date := 950, Content := [3] }][0]?
      = some { ID := "m2".data, Date := 0, Content := [2] } ∧
    demoRelay 0 [2] demoForwarder.account.ForwardTo "m2".data = none ∧
    "m2".data ∈
      (demoForwarder.poll demoFetch demoRelay (fun _ => .openFails) demoTracker none).tracker.SeenIDs :=
  ⟨by decide, by decide, by decide,
    (C3_failed_commit_is_seen_in_process demoForwarder demoFetch demoRelay (fun _ => .openFails)
      demoTracker none
      [{ ID := "m2".data, Date := 0, Content := [2] },
       { ID := "m3".data, Date := 950, Content := [3] }] 0
      { ID := "m2".data, Date := 0, Content := [2] } (by decide) (by decide) (by decide)).2.2.1⟩

/-! ## The claims about the mail sources -/

/-- C5. Exclusion filter: for the POP3 and for the IMAP adapter, whatever the
server does and whatever the snapshot, every message Fetch returns has an
identifier (the Message-ID, or the synthesized fallback, as Fetch computes it for
a listed message) that is not a member of the snapshot, and the snapshot is the
same after the call. -/
theorem C5_exclusion_filter (pr : POP3Receiver) (ir : IMAPReceiver)
    (parse : List Nat → Option MailHeader) (clock : Clock) (psrv : POP3Server)
    (isrv : IMAPServer) (seen : Finset (List Char)) (days : Int) :
    (pr.Fetch parse clock psrv seen days).seenIDs = seen ∧
    (∀ emails, (pr.Fetch parse clock psrv seen days).result = .ok emails →
      ∀ e ∈ emails, e.ID ∉ seen ∧
        ∃ msgs msg raw, psrv.list = some msgs ∧ msg ∈ msgs ∧ psrv.retr msg.ID = some raw ∧
          e = pr.emailOf parse msg raw) ∧
    (ir.Fetch clock isrv seen days).seenIDs = seen ∧
    (∀ emails, (ir.Fetch clock isrv seen days).result = .ok emails →
      ∀ e ∈ emails, e.ID ∉ seen ∧ ∃ buf, e = ir.emailOf buf) := by
  refine ⟨?_, ?_, ?_, ?_⟩
  · unfold POP3Receiver.Fetch
    split
    · rfl
    · split
      · rfl
      · split
        · rfl
        · exact pop3_loop_seenIDs pr parse psrv.retr _ _ _
  · intro emails hres e he
    exact pop3_Fetch_mem pr parse clock psrv seen days emails hres e he
  · unfold IMAPReceiver.Fetch
    split
    · rfl
    · split
      · rfl
      · split
        · rfl
        · split
          · rfl
          · split
            · rfl
            · split
              · rfl
              · exact imap_loop_seenIDs ir _ _
  · intro emails hres e he
    exact imap_Fetch_mem ir clock isrv seen days emails hres e he

/-- A witness of C5: with "m1" in the snapshot and a lookback of 7 days, the POP3
mailbox of the examples yields "m2" and "m3" and not "m1". -/
theorem C5_exclusion_filter_witness :
    (demoPOP3Receiver.Fetch demoParse demoClock demoPOP3 {"m1".data} 7).result
      = .ok [{ ID := "m2".data, Date := 0, Content := [2] },
             { ID := "m3".data, Date := 950, Content := [3] }] ∧
    ∀ e ∈ [({ ID := "m2".data, Date := 0, Content := [2] } : Email),
           { ID := "m3".data, Date := 950, Content := [3] }],
      e.ID ∉ ({"m1".data} : Finset (List Char)) ∧
        ∃ msgs msg raw, demoPOP3.list = some msgs ∧ msg ∈ msgs ∧
          demoPOP3.retr msg.ID = some raw ∧ e = demoPOP3Receiver.emailOf demoParse msg raw :=
  ⟨by decide,
    (C5_exclusion_filter demoPOP3Receiver demoIMAPReceiver demoParse demoClock demoPOP3 demoIMAP
      {"m1".data} 7).2.1 _ (by decide)⟩

/-- C10. POP3 lookback filter: for every retrieved POP3 message whose identifier is
not in the seen-set, the message is returned by Fetch if and only if the message
or its Date header cannot be parsed, or the parsed date is the zero time or is
not before the cutoff, now minus lookbackDays days. In particular every unseen
message with an unparseable date is returned, every unseen message whose Date
header parses to a date at or after the cutoff is returned with that date, and
every unseen message whose Date header parses to a date that is not the zero
time and lies before the cutoff is dropped. The same is stated through what
extractDate yields: returned if and only if that is the zero time or not before
the cutoff. -/
theorem C10_pop3_lookback_filter (r : POP3Receiver) (parse : List Nat → Option MailHeader)
    (clock : Clock) (srv : POP3Server) (seen : Finset (List Char)) (days : Int)
    (msgs : List POP3Msg) (msg : POP3Msg) (raw : List Nat)
    (hc : srv.connect = true) (ha : srv.auth = true) (hl : srv.list = some msgs)
    (hm : msg ∈ msgs) (hr : srv.retr msg.ID = some raw)
    (hs : r.msgID parse msg raw ∉ seen) :
    ∃ emails, (r.Fetch parse clock srv seen days).result = .ok emails ∧
      (r.emailOf parse msg raw ∈ emails ↔
        (isZeroTime (extractDate parse raw) = true ∨
          timeBefore (extractDate parse raw) (clock.addDays clock.now (-days)) = false)) ∧
      ((parse raw = none ∨ ∃ h, parse raw = some h ∧ h.date = none) →
        r.emailOf parse msg raw ∈ emails) ∧
      (isZeroTime (extractDate parse raw) = false →
        timeBefore (extractDate parse raw) (clock.addDays clock.now (-days)) = true →
        r.emailOf parse msg raw ∉ emails) ∧
      (r.emailOf parse msg raw ∈ emails ↔
        (parse raw = none ∨ ∃ h, parse raw = some h ∧
          (h.date = none ∨ ∃ d, h.date = some d ∧
            (d = 0 ∨ ¬ d < clock.addDays clock.now (-days))))) ∧
      (∀ h d, parse raw = some h → h.date = some d → d ≠ 0 →
        d < clock.addDays clock.now (-days) → r.emailOf parse msg raw ∉ emails) ∧
      (∀ h d, parse raw = some h → h.date = some d →
        ¬ d < clock.addDays clock.now (-days) →
        r.emailOf parse msg raw ∈ emails ∧ (r.emailOf parse msg raw).Date = d ∧
          (r.emailOf parse msg raw).Content = raw) := by
  refine ⟨_, pop3_Fetch_ok r parse clock srv seen days msgs hc ha hl, ?_⟩
  have key : r.emailOf parse msg raw ∈
      (r.fetchLoop parse srv.retr (clock.addDays clock.now (-days)) msgs
        { seenIDs := seen, emails := [] }).emails ↔
      (extractDate parse raw = 0 ∨ ¬ extractDate parse raw < clock.addDays clock.now (-days)) := by
    rw [pop3_loop_mem]
    constructor
    · rintro (h | ⟨msg2, _, raw2, _, _, hz, heq⟩)
      · simp at h
      · have hraw : raw = raw2 := congrArg Email.Content heq
        rw [hraw]
        exact hz
    · intro hz
      exact Or.inr ⟨msg, hm, raw, hr, hs, hz, rfl⟩
  have hdate : ∀ h d, parse raw = some h → h.date = some d → extractDate parse raw = d := by
    intro h d hp hd
    simp [extractDate, hp, hd]
  refine ⟨?_, ?_, ?_, ?_, ?_, ?_⟩
  · rw [key]
    simp [isZeroTime, timeBefore]
  · intro hp
    rw [key]
    left
    rcases hp with hp | ⟨h, hp, hd⟩
    · simp [extractDate, hp]
    · simp [extractDate, hp, hd]
  · intro h1 h2
    rw [key]
    simp only [isZeroTime, timeBefore, beq_eq_false_iff_ne, decide_eq_true_eq] at h1 h2
    rintro (h | h)
    · exact h1 h
    · exact h h2
  · rw [key]
    cases hp : parse raw with
    | none => simp [extractDate, hp]
    | some h =>
      cases hd : h.date with
      | none => simp [extractDate, hp, hd]
      | some d => simp [extractDate, hp, hd]
  · intro h d hp hd h0 hlt
    rw [key, hdate h d hp hd]
    rintro (hz | hz)
    · exact h0 hz
    · exact hz hlt
  · intro h d hp hd hge
    refine ⟨?_, ?_, rfl⟩
    · rw [key, hdate h d hp hd]
      exact Or.inr hge
    · exact hdate h d hp hd

/-- A witness of C10: in the POP3 mailbox of the examples, with an empty seen-set
and a lookback of 7 days (cutoff 930), the message "m1", whose Date header
parses to 100, is dropped; the message "m2", whose date does not parse, and the
message "m3", whose Date header parses to 950, are returned. -/
theorem C10_pop3_lookback_filter_witness :
    demoPOP3.connect = true ∧ demoPOP3.auth = true ∧
    demoPOP3.list = some [{ ID := 1, UID := "u1".data }, { ID := 2, UID := "u2".data },
      { ID := 3, UID := "u3".data }] ∧
    ({ ID := 1, UID := "u1".data } : POP3Msg) ∈
      [({ ID := 1, UID := "u1".data } : POP3Msg), { ID := 2, UID := "u2".data },
        { ID := 3, UID := "u3".data }] ∧
    demoPOP3.retr 1 = some [1] ∧
    demoPOP3Receiver.msgID demoParse { ID := 1, UID := "u1".data } [1] ∉ (∅ : Finset (List Char)) ∧
    (demoParse [1]).map MailHeader.date = some (some 100) ∧
    (100 : Int) ≠ 0 ∧ (100 : Int) < demoClock.addDays demoClock.now (-7) ∧
    (∃ emails, (demoPOP3Receiver.Fetch demoParse demoClock demoPOP3 ∅ 7).result = .ok emails ∧
      demoPOP3Receiver.emailOf demoParse { ID := 1, UID := "u1".data } [1] ∉ emails) ∧
    (∃ emails, (demoPOP3Receiver.Fetch demoParse demoClock demoPOP3 ∅ 7).result = .ok emails ∧
      demoPOP3Receiver.emailOf demoParse { ID := 2, UID := "u2".data } [2] ∈ emails) ∧
    (∃ emails, (demoPOP3Receiver.Fetch demoParse demoClock demoPOP3 ∅ 7).result = .ok emails ∧
      demoPOP3Receiver.emailOf demoParse { ID := 3, UID := "u3".data } [3] ∈ emails ∧
      (demoPOP3Receiver.emailOf demoParse { ID := 3, UID := "u3".data } [3]).Date = 950) :=
  ⟨rfl, rfl, rfl, by decide, rfl, by decide, rfl, by decide, by decide,
    (C10_pop3_lookback_filter demoPOP3Receiver demoParse demoClock demoPOP3 ∅ 7 _
      { ID := 1, UID := "u1".data } [1] rfl rfl rfl (by decide) rfl (by decide)).imp
      fun _ h => ⟨h.1, h.2.2.2.2.2.1 _ 100 rfl rfl (by decide) (by decide)⟩,
    (C10_pop3_lookback_filter demoPOP3Receiver demoParse demoClock demoPOP3 ∅ 7 _
      { ID := 2, UID := "u2".data } [2] rfl rfl rfl (by decide) rfl (by decide)).imp
      fun _ h => ⟨h.1, h.2.2.1 (Or.inr ⟨_, rfl, rfl⟩)⟩,
    (C10_pop3_lookback_filter demoPOP3Receiver demoParse demoClock demoPOP3 ∅ 7 _
      { ID := 3, UID := "u3".data } [3] rfl rfl rfl (by decide) rfl (by decide)).imp
      fun _ h => ⟨h.1, (h.2.2.2.2.2.2 _ 950 rfl rfl (by decide)).1,
        (h.2.2.2.2.2.2 _ 950 rfl rfl (by decide)).2.1⟩⟩

/-! ## The claims about the relay -/

theorem session_spec (s : Sender) (srv : SMTPServer) (sender dest : List Char)
    (message : List Nat) (steps : List (SMTPStep × Bool))
    (h1 : (SMTPStep.closeData, true) ∉ steps) (h2 : (SMTPStep.quit, true) ∉ steps) :
    ((SMTPStep.closeData, true) ∈ (s.session srv sender dest message steps).steps →
      (s.session srv sender dest message steps).err = if srv.quit then none else some .quit) ∧
    ((s.session srv sender dest message steps).err = none ↔
      (SMTPStep.closeData, true) ∈ (s.session srv sender dest message steps).steps ∧
      (SMTPStep.quit, true) ∈ (s.session srv sender dest message steps).steps) := by
  unfold Sender.session
  simp only
  split_ifs <;> simp_all

/-- C7, the claim as stated, fails: every step up to and including the closing
of the data writer succeeds, QUIT fails, and Forward returns an error. -/
theorem C7_counterexample :
    (SMTPStep.closeData, true) ∈
      (demoSender.Forward demoParse demoNow demoSMTPQuitFails [1] "bob@example.org".data
        "m1".data).steps ∧
    (demoSender.Forward demoParse demoNow demoSMTPQuitFails [1] "bob@example.org".data
      "m1".data).err = some .quit := by
  decide

/-- C7 (amended). For every outcome of the SMTP steps, Forward returns no error
exactly when the data writer was closed successfully and QUIT succeeded as well:
whenever the data writer was closed successfully the call reports what QUIT
returned (an error when QUIT failed, although the server has accepted the
message), and an error other than that of QUIT is returned only when the data
writer was not closed successfully. -/
theorem C7_Forward_result (s : Sender) (parse : List Nat → Option MailHeader) (now : UTCTime)
    (srv : SMTPServer) (rawEmail : List Nat) (dest originalID : List Char) :
    ((SMTPStep.closeData, true) ∈ (s.Forward parse now srv rawEmail dest originalID).steps →
      (s.Forward parse now srv rawEmail dest originalID).err
        = if srv.quit then none else some .quit) ∧
    ((s.Forward parse now srv rawEmail dest originalID).err = none ↔
      (SMTPStep.closeData, true) ∈ (s.Forward parse now srv rawEmail dest originalID).steps ∧
      (SMTPStep.quit, true) ∈ (s.Forward parse now srv rawEmail dest originalID).steps) ∧
    (∀ err, (s.Forward parse now srv rawEmail dest originalID).err = some err →
      err ≠ .quit →
      (SMTPStep.closeData, true) ∉ (s.Forward parse now srv rawEmail dest originalID).steps) := by
  have key : ((SMTPStep.closeData, true) ∈
        (s.Forward parse now srv rawEmail dest originalID).steps →
      (s.Forward parse now srv rawEmail dest originalID).err
        = if srv.quit then none else some .quit) ∧
    ((s.Forward parse now srv rawEmail dest originalID).err = none ↔
      (SMTPStep.closeData, true) ∈ (s.Forward parse now srv rawEmail dest originalID).steps ∧
      (SMTPStep.quit, true) ∈ (s.Forward parse now srv rawEmail dest originalID).steps) := by
    unfold Sender.Forward
    cases hT : s.useTLS <;> cases hd : srv.dial <;> cases htd : srv.tlsDial <;>
      cases hn : srv.newClient <;> cases ho : srv.startTLSOffered <;>
      simp only [Bool.not_true, Bool.not_false, if_true, if_false, Bool.false_eq_true] <;>
      first
      | exact session_spec s srv _ _ _ _ (by simp) (by simp)
      | simp
  refine ⟨key.1, key.2, ?_⟩
  intro err herr hne hclosed
  have h := key.1 hclosed
  rw [herr] at h
  split at h
  · cases h
  · exact hne (Option.some.inj h)

/-- A witness of C7 (amended): on the server of the examples the data writer is
closed successfully and Forward reports the failure of QUIT. -/
theorem C7_Forward_result_witness :
    (SMTPStep.closeData, true) ∈
      (demoSender.Forward demoParse demoNow demoSMTPQuitFails [1] "bob@example.org".data
        "m1".data).steps ∧
    (demoSender.Forward demoParse demoNow demoSMTPQuitFails [1] "bob@example.org".data
      "m1".data).err = if demoSMTPQuitFails.quit then none else some .quit :=
  ⟨by decide,
    (C7_Forward_result demoSender demoParse demoNow demoSMTPQuitFails [1] "bob@example.org".data
      "m1".data).1 (by decide)⟩

theorem digitChar_ne_lf : ∀ d < 10, Nat.digitChar d ≠ '\n' := by
  decide

theorem toDigitsCore_no_lf : ∀ (fuel n : Nat) (acc : List Char), '\n' ∉ acc →
    '\n' ∉ Nat.toDigitsCore 10 fuel n acc := by
  intro fuel
  induction fuel with
  | zero =>
    intro n acc h
    simpa [Nat.toDigitsCore] using h
  | succ fuel ih =>
    intro n acc h
    have hcons : '\n' ∉ Nat.digitChar (n % 10) :: acc := by
      intro hmem
      rcases List.mem_cons.mp hmem with h1 | h1
      · exact digitChar_ne_lf (n % 10) (Nat.mod_lt _ (by decide)) h1.symm
      · exact h h1
    simp only [Nat.toDigitsCore]
    split
    · exact hcons
    · exact ih _ _ hcons

theorem appendInt_no_lf (x width : Nat) : '\n' ∉ appendInt x width := by
  unfold appendInt
  intro h
  rcases List.mem_append.mp h with h | h
  · have := List.eq_of_mem_replicate h
    revert this
    decide
  · exact toDigitsCore_no_lf _ _ [] (by simp) h

theorem appendInt_count (x width : Nat) : List.count '\n' (appendInt x width) = 0 :=
  List.count_eq_zero.mpr (appendInt_no_lf x width)

theorem formatRFC3339_lineFeeds (t : UTCTime) : lineFeeds (formatRFC3339 t) = 0 := by
  unfold lineFeeds formatRFC3339
  simp only [List.count_append, appendInt_count]
  decide

theorem session_write (s : Sender) (srv : SMTPServer) (sender dest : List Char)
    (message : List Nat) (steps : List (SMTPStep × Bool))
    (h1 : ∀ m b, (SMTPStep.write m, b) ∉ steps) :
    (∀ m b, (SMTPStep.write m, b) ∈ (s.session srv sender dest message steps).steps →
      m = message) ∧
    ((s.session srv sender dest message steps).err = none →
      (SMTPStep.write message, true) ∈ (s.session srv sender dest message steps).steps) := by
  unfold Sender.session
  simp only
  split_ifs <;> simp_all

/-- C8, the claim as stated, fails: for the original identifier "a" CR LF "b"
the bytes written to the data stream are the forwarding headers and the raw
message, and the headers before the raw message are four lines, not three. -/
theorem C8_counterexample :
    (SMTPStep.write (toBytes (forwardHeaders "a\r\nb".data demoNow) ++ [1]), true) ∈
      (demoSender.Forward demoParse demoNow demoSMTPQuitFails [1] "bob@example.org".data
        "a\r\nb".data).steps ∧
    forwardHeaders "a\r\nb".data demoNow =
      ("X-Forwarded-By: gomailify\r\nX-Original-Message-ID: a\r\nb\r\n" ++
        "X-Forwarded-Time: 2026-11-04T09:05:00Z\r\n").data ∧
    lineFeeds (forwardHeaders "a\r\nb".data demoNow) = 4 := by
  decide

/-- C8 (amended). For every raw message, original identifier and forwarding
time, the bytes Forward writes to the SMTP data stream are exactly the three
pieces "X-Forwarded-By: gomailify", "X-Original-Message-ID: " with the identifier
and "X-Forwarded-Time: " with the UTC time in RFC3339 layout, each followed by
CR LF, followed by the raw message unchanged, so that the raw content is a
byte-for-byte suffix of the transmitted message; a call that returns no error has
written them; and when the identifier holds no line feed the text before the raw
message consists of exactly three lines. -/
theorem C8_forward_message (s : Sender) (parse : List Nat → Option MailHeader) (now : UTCTime)
    (srv : SMTPServer) (rawEmail : List Nat) (dest originalID : List Char) :
    forwardHeaders originalID now =
      "X-Forwarded-By: gomailify".data ++ ['\r', '\n'] ++
      ("X-Original-Message-ID: ".data ++ originalID) ++ ['\r', '\n'] ++
      ("X-Forwarded-Time: ".data ++ formatRFC3339 now) ++ ['\r', '\n'] ∧
    (∀ m b, (SMTPStep.write m, b) ∈ (s.Forward parse now srv rawEmail dest originalID).steps →
      m = toBytes (forwardHeaders originalID now) ++ rawEmail ∧ rawEmail <:+ m) ∧
    ((s.Forward parse now srv rawEmail dest originalID).err = none →
      (SMTPStep.write (toBytes (forwardHeaders originalID now) ++ rawEmail), true) ∈
        (s.Forward parse now srv rawEmail dest originalID).steps) ∧
    ('\n' ∉ originalID → lineFeeds (forwardHeaders originalID now) = 3) := by
  have key : (∀ m b,
      (SMTPStep.write m, b) ∈ (s.Forward parse now srv rawEmail dest originalID).steps →
        m = toBytes (forwardHeaders originalID now) ++ rawEmail) ∧
      ((s.Forward parse now srv rawEmail dest originalID).err = none →
        (SMTPStep.write (toBytes (forwardHeaders originalID now) ++ rawEmail), true) ∈
          (s.Forward parse now srv rawEmail dest originalID).steps) := by
    unfold Sender.Forward
    cases hT : s.useTLS <;> cases hd : srv.dial <;> cases htd : srv.tlsDial <;>
      cases hn : srv.newClient <;> cases ho : srv.startTLSOffered <;>
      simp only [Bool.not_true, Bool.not_false, if_true, if_false, Bool.false_eq_true] <;>
      first
      | exact session_write s srv _ _ _ _ (by simp)
      | simp
  refine ⟨?_, ?_, key.2, ?_⟩
  · simp [forwardHeaders]
  · intro m b hm
    have h := key.1 m b hm
    exact ⟨h, h ▸ List.suffix_append _ _⟩
  · intro hid
    have h0 : List.count '\n' originalID = 0 := List.count_eq_zero.mpr hid
    have h1 := formatRFC3339_lineFeeds now
    unfold lineFeeds at h1 ⊢
    unfold forwardHeaders
    simp only [List.count_append, h0, h1]
    decide

/-- A witness of C8 (amended): the identifier "m1" at the time of the examples. -/
theorem C8_forward_message_witness :
    '\n' ∉ "m1".data ∧ lineFeeds (forwardHeaders "m1".data demoNow) = 3 :=
  ⟨by decide,
    (C8_forward_message demoSender demoParse demoNow demoSMTPQuitFails [1]
      "bob@example.org".data "m1".data).2.2.2 (by decide)⟩

/-! ## The claims about main -/

set_option maxRecDepth 100000 in
theorem sanitizeByte_plain : ∀ b < 256, sanitizeByte b ≠ '/' ∧ sanitizeByte b ≠ '.' := by
  decide

theorem sanitizeByte_big (b : Nat) (h : 256 ≤ b) : sanitizeByte b = '_' := by
  have : safeByte b = false := by
    simp only [safeByte, Bool.or_eq_false_iff, Bool.and_eq_false_imp, decide_eq_true_eq,
      decide_eq_false_iff_not, beq_eq_false_iff_ne]
    omega
  simp [sanitizeByte, this]

theorem sanitizeByte_no_slash (b : Nat) : sanitizeByte b ≠ '/' := by
  by_cases h : b < 256
  · exact (sanitizeByte_plain b h).1
  · rw [sanitizeByte_big b (by omega)]
    decide

theorem sanitize_no_slash (name : List Char) : '/' ∉ sanitize name := by
  unfold sanitize
  split
  · decide
  · intro h
    rw [List.mem_map] at h
    obtain ⟨b, _, hb⟩ := h
    exact sanitizeByte_no_slash b hb

theorem sanitizeByte_safe : ∀ v < 128, safeByte v = true → sanitizeByte v = Char.ofNat v := by
  intro v _ h
  simp [sanitizeByte, h]

theorem safeByte_lt : ∀ v, safeByte v = true → v < 128 := by
  intro v h
  simp only [safeByte, Bool.or_eq_true, Bool.and_eq_true, decide_eq_true_eq, beq_iff_eq] at h
  omega

theorem sanitize_safeName (name : List Char) (h : safeName name) : sanitize name = name := by
  unfold sanitize
  rw [if_neg h.1]
  have hall := h.2
  clear h
  induction name with
  | nil => rfl
  | cons c cs ih =>
    have hc := hall c (List.mem_cons_self _ _)
    have hlt := safeByte_lt _ hc
    have h1 : utf8Bytes c = [c.toNat] := by
      simp [utf8Bytes, hlt]
    have h2 : toBytes (c :: cs) = c.toNat :: toBytes cs := by
      simp [toBytes, h1]
    rw [h2, List.map_cons, ih fun x hx => hall x (List.mem_cons_of_mem _ hx),
      sanitizeByte_safe _ hlt hc, Char.ofNat_toNat]

theorem intercalate_concat (sep : List Char) (S : List (List Char)) (x : List Char) :
    List.intercalate sep (S ++ [x]) =
      (if S = [] then [] else List.intercalate sep S ++ sep) ++ x := by
  induction S with
  | nil => simp [List.intercalate]
  | cons a S ih =>
    cases S with
    | nil => simp [List.intercalate]
    | cons b S =>
      have h1 : List.intercalate sep (a :: (b :: S ++ [x])) =
          a ++ sep ++ List.intercalate sep (b :: S ++ [x]) := by
        simp [List.intercalate]
      have h2 : List.intercalate sep (a :: b :: S) = a ++ sep ++ List.intercalate sep (b :: S) := by
        simp [List.intercalate]
      have h3 : a :: b :: S ++ [x] = a :: (b :: S ++ [x]) := rfl
      rw [h3, h1, ih, h2]
      simp

theorem cleanStep_file (rooted : Bool) (S : List (List Char)) (file : List Char)
    (h1 : file ≠ []) (h2 : file ≠ ['.']) (h3 : file ≠ ['.', '.']) :
    cleanStep rooted S file = S ++ [file] := by
  simp [cleanStep, h1, h2, h3]

theorem head_ne_slash (file : List Char) (h : '/' ∉ file) : ¬ file.head? = some '/' := by
  cases file with
  | nil => simp
  | cons c cs =>
    intro hc
    simp only [List.head?_cons, Option.some.injEq] at hc
    exact h (hc ▸ List.mem_cons_self _ _)

/-- What `filepath.Join(dataDir, file)` is for a plain file name: a text that
depends on the directory only, followed by the file name. -/
theorem filepathJoin_file (dataDir : List Char) :
    ∃ P : List Char, ∀ file : List Char, '/' ∉ file → file ≠ [] → file ≠ ['.'] →
      file ≠ ['.', '.'] → filepathJoin [dataDir, file] = P ++ file := by
  by_cases hd : dataDir = []
  · refine ⟨[], ?_⟩
    intro file h0 h1 h2 h3
    have hfilter : [dataDir, file].filter (fun e => e ≠ []) = [file] := by
      simp [List.filter, hd, h1]
    unfold filepathJoin
    rw [hfilter]
    have hint : List.intercalate ['/'] [file] = file := by simp [List.intercalate]
    rw [if_neg (by simp), hint]
    unfold filepathClean
    rw [if_neg h1]
    have hroot : decide (file.head? = some '/') = false := by
      simpa using head_ne_slash file h0
    have hsplit : splitPath file = [file] := splitOnChar_no_sep '/' file h0
    simp only [hroot, hsplit, List.foldl_cons, List.foldl_nil, cleanStep_file false [] file h1 h2 h3,
      List.nil_append, hint, Bool.false_eq_true, if_false, h1]
  · refine ⟨(if dataDir.head? = some '/' then ['/'] else []) ++
      (if (splitPath dataDir).foldl (cleanStep (decide (dataDir.head? = some '/'))) [] = [] then []
       else List.intercalate ['/']
         ((splitPath dataDir).foldl (cleanStep (decide (dataDir.head? = some '/'))) []) ++ ['/']),
      ?_⟩
    intro file h0 h1 h2 h3
    have hfilter : [dataDir, file].filter (fun e => e ≠ []) = [dataDir, file] := by
      simp [List.filter, hd, h1]
    unfold filepathJoin
    rw [hfilter]
    have hint : List.intercalate ['/'] [dataDir, file] = dataDir ++ '/' :: file := by
      simp [List.intercalate]
    rw [if_neg (by simp), hint]
    unfold filepathClean
    rw [if_neg (by simp)]
    have hhead : (dataDir ++ '/' :: file).head? = dataDir.head? := by
      cases dataDir with
      | nil => exact absurd rfl hd
      | cons c cs => rfl
    have hsplit : splitPath (dataDir ++ '/' :: file) = splitPath dataDir ++ [file] := by
      unfold splitPath
      rw [splitOnChar_append_sep, splitOnChar_no_sep '/' file h0]
    simp only [hhead, hsplit, List.foldl_append, List.foldl_cons, List.foldl_nil,
      cleanStep_file _ _ file h1 h2 h3, intercalate_concat]
    by_cases hr : dataDir.head? = some '/'
    · simp [hr]
    · simp [hr, h1]

theorem seen_file_plain (s : List Char) (hs : '/' ∉ s) :
    '/' ∉ s ++ ".seen".data ∧ s ++ ".seen".data ≠ [] ∧ s ++ ".seen".data ≠ ['.'] ∧
      s ++ ".seen".data ≠ ['.', '.'] := by
  refine ⟨?_, ?_, ?_, ?_⟩
  · intro h
    rcases List.mem_append.mp h with h | h
    · exact hs h
    · revert h
      decide
  · intro h
    have := congrArg List.length h
    simp at this
  · intro h
    have := congrArg List.length h
    simp at this
  · intro h
    have := congrArg List.length h
    simp at this

/-- The ledger paths of two accounts are equal exactly when their sanitized names are. -/
theorem dedupFile_eq_iff (dataDir : List Char) (a b : Account) :
    dedupFile dataDir a = dedupFile dataDir b ↔ sanitize a.Name = sanitize b.Name := by
  constructor
  · intro h
    obtain ⟨P, hP⟩ := filepathJoin_file dataDir
    have ha := seen_file_plain (sanitize a.Name) (sanitize_no_slash a.Name)
    have hb := seen_file_plain (sanitize b.Name) (sanitize_no_slash b.Name)
    unfold dedupFile at h
    rw [hP _ ha.1 ha.2.1 ha.2.2.1 ha.2.2.2, hP _ hb.1 hb.2.1 hb.2.2.1 hb.2.2.2] at h
    exact List.append_cancel_right (List.append_cancel_left h)
  · intro h
    unfold dedupFile
    rw [h]

theorem validateAccounts_receivers (accts : List Account) :
    ∀ i : Nat, validateAccounts i accts = none → ∀ a ∈ accts, ∃ r, newReceiver a = some r := by
  induction accts with
  | nil => intro i _ a ha; simp at ha
  | cons acct rest ih =>
    intro i h a ha
    unfold validateAccounts at h
    simp only at h
    split at h
    · cases h
    · rename_i hproto
      split at h
      · cases h
      · split at h
        · cases h
        · split at h
          · cases h
          · rcases List.mem_cons.mp ha with ha | ha
            · subst ha
              unfold newReceiver
              by_cases h1 : a.Protocol = "pop3".data
              · simp [h1]
              · have h2 : a.Protocol = "imap".data := by
                  by_contra h2
                  exact hproto ⟨h1, h2⟩
                simp [h2]
            · exact ih (i + 1) h a ha

theorem mainWorkers_mem (dataDir : List Char) (trackerOk : List Char → Bool)
    (accts : List Account) :
    ∀ w ∈ mainWorkers dataDir trackerOk accts, w.1 ∈ accts ∧ w.2 = dedupFile dataDir w.1 := by
  induction accts with
  | nil => intro w hw; simp [mainWorkers] at hw
  | cons acct rest ih =>
    intro w hw
    unfold mainWorkers at hw
    split at hw
    · exact ⟨List.mem_cons_of_mem _ (ih w hw).1, (ih w hw).2⟩
    · split at hw
      · rcases List.mem_cons.mp hw with hw | hw
        · subst hw
          exact ⟨List.mem_cons_self _ _, rfl⟩
        · exact ⟨List.mem_cons_of_mem _ (ih w hw).1, (ih w hw).2⟩
      · exact ⟨List.mem_cons_of_mem _ (ih w hw).1, (ih w hw).2⟩

theorem mainWorkers_all (dataDir : List Char) (accts : List Account)
    (h : ∀ a ∈ accts, ∃ r, newReceiver a = some r) :
    mainWorkers dataDir (fun _ => true) accts = accts.map fun a => (a, dedupFile dataDir a) := by
  induction accts with
  | nil => rfl
  | cons acct rest ih =>
    obtain ⟨r, hr⟩ := h acct (List.mem_cons_self _ _)
    unfold mainWorkers
    rw [hr]
    simp only [if_true, List.map_cons]
    rw [ih fun a ha => h a (List.mem_cons_of_mem _ ha)]

/-- C9, the claim as stated, fails: the configuration with the two accounts
"a b" and "a_b" is accepted by validate, the accounts and their names differ,
and main gives both workers the ledger file data/a_b.seen. -/
theorem C9_counterexample :
    demoConfig.validate = none ∧
    demoAccount "a b".data ≠ demoAccount "a_b".data ∧
    (demoAccount "a b".data).Name ≠ (demoAccount "a_b".data).Name ∧
    mainWorkers "data".data (fun _ => true) demoConfig.Accounts =
      [(demoAccount "a b".data, "data/a_b.seen".data),
       (demoAccount "a_b".data, "data/a_b.seen".data)] := by
  decide

/-- C9 (amended). For every configuration accepted by validate, main starts a
worker for every account whose ledger loads and gives it the ledger file
dataDir/sanitize(name).seen; two accounts are given different ledger files
exactly when their sanitized names differ, in particular whenever their names
differ and both are non-empty and made of ASCII letters, digits, hyphens and
underscores only. -/
theorem C9_ledger_paths (cfg : Config) (dataDir : List Char) (hv : cfg.validate = none) :
    mainWorkers dataDir (fun _ => true) cfg.Accounts =
      (cfg.Accounts.map fun a => (a, dedupFile dataDir a)) ∧
    (∀ trackerOk, ∀ w ∈ mainWorkers dataDir trackerOk cfg.Accounts,
      w.1 ∈ cfg.Accounts ∧ w.2 = dedupFile dataDir w.1) ∧
    (∀ a b : Account,
      dedupFile dataDir a ≠ dedupFile dataDir b ↔ sanitize a.Name ≠ sanitize b.Name) ∧
    (∀ a b : Account, safeName a.Name → safeName b.Name → a.Name ≠ b.Name →
      dedupFile dataDir a ≠ dedupFile dataDir b) := by
  have hacc : validateAccounts 0 cfg.Accounts = none := by
    unfold Config.validate at hv
    split at hv
    · cases hv
    · split at hv
      · cases hv
      · split at hv
        · cases hv
        · exact hv
  refine ⟨?_, ?_, ?_, ?_⟩
  · exact mainWorkers_all dataDir cfg.Accounts (validateAccounts_receivers cfg.Accounts 0 hacc)
  · intro trackerOk
    exact mainWorkers_mem dataDir trackerOk cfg.Accounts
  · intro a b
    exact not_congr (dedupFile_eq_iff dataDir a b)
  · intro a b ha hb hne heq
    have := (dedupFile_eq_iff dataDir a b).mp heq
    rw [sanitize_safeName _ ha, sanitize_safeName _ hb] at this
    exact hne this

/-- A witness of C9 (amended): the configuration with the accounts "work" and "home". -/
theorem C9_ledger_paths_witness :
    demoConfigPlain.validate = none ∧
    safeName "work".data ∧ safeName "home".data ∧ "work".data ≠ "home".data ∧
    dedupFile "data".data (demoAccount "work".data)
      ≠ dedupFile "data".data (demoAccount "home".data) :=
  ⟨by decide, by decide, by decide, by decide,
    (C9_ledger_paths demoConfigPlain "data".data (by decide)).2.2.2 (demoAccount "work".data)
      (demoAccount "home".data) (by decide) (by decide) (by decide)⟩

/-! ## The claim about the poll interval -/

theorem wrapInt64_of_fits (x : Int) (h1 : -(2 ^ 63) ≤ x) (h2 : x < 2 ^ 63) : wrapInt64 x = x := by
  unfold wrapInt64
  rw [Int.emod_eq_of_lt (by omega) (by omega)]
  omega

/-- Where `CheckInterval` does what its comment says: the default of 60 seconds
for a value that is unset or not positive, and exactly the configured number of
seconds, a positive duration that `NewTicker` accepts, for a value of at most
9223372036 seconds. -/
theorem CheckInterval_in_range (a : Account) :
    (a.CheckIntervalSeconds ≤ 0 → a.CheckInterval = 60 * Second) ∧
    (0 < a.CheckIntervalSeconds → a.CheckIntervalSeconds ≤ maxDurationSeconds →
      a.CheckInterval = a.CheckIntervalSeconds * Second ∧ 0 < a.CheckInterval ∧
      NewTicker a.CheckInterval = some (a.CheckIntervalSeconds * Second)) := by
  constructor
  · intro h
    simp [Account.CheckInterval, h]
  · intro hpos hmax
    have hval : a.CheckInterval = a.CheckIntervalSeconds * Second := by
      unfold Account.CheckInterval
      rw [if_neg (by omega)]
      unfold maxDurationSeconds at hmax
      apply wrapInt64_of_fits <;> unfold Second <;> omega
    have hgt : 0 < a.CheckIntervalSeconds * Second := by
      unfold Second
      omega
    refine ⟨hval, hval ▸ hgt, ?_⟩
    rw [hval]
    unfold NewTicker
    rw [if_neg (by omega)]

/-- C11 fails on the code at an interval of 9223372037 seconds. The configuration
is accepted by validate; the product with time.Second leaves the signed 64-bit
range and wraps, so CheckInterval returns -9223372036709551616 nanoseconds, which
is neither 9223372037 seconds nor strictly positive, and NewTicker in Run panics
on it. At 18446744074 seconds the result wraps to 290448384 nanoseconds, a
positive interval of under a third of a second. -/
theorem C11_CheckInterval_overflow :
    (demoConfigEvery 9223372037).validate = none ∧
    (demoAccountEvery 9223372037).CheckInterval = -9223372036709551616 ∧
    (demoAccountEvery 9223372037).CheckInterval ≠ 9223372037 * Second ∧
    ¬ 0 < (demoAccountEvery 9223372037).CheckInterval ∧
    Forwarder.runTicker { account := demoAccountEvery 9223372037 } = none ∧
    (demoAccountEvery 18446744074).CheckInterval = 290448384 := by
  decide

end Gomailify
